import Mathlib

/-!
# pwf-morph: the digit morphing engine of `src/clock.c`

A shallow embedding of the digit state machine (`digit_init`, `digit_set_value`,
`digit_draw`) and of the clock aggregate (`clock_create`, `clock_has_frame`,
`clock_set_time`, `clock_draw`) for the build that the sources select:
`WITH_DATE 0` (clock.h) and `TIME_VARIATION1 1` (clock.c).

Conventions of the embedding

* The four fields of `Digit` are declared `char` in clock.h.  The watch is an ARM
  target, where plain `char` is an unsigned 8-bit integer, so a field is a
  `CChar = Fin 256`; every store of an `int` into a field goes through `toChar`
  (reduction modulo `2^8`) and every read is promoted to `Int` by `ofChar`.
* All arithmetic of `digit_draw` and `clock_draw` is C `int` arithmetic on small
  numbers and is done in `Int`; C division truncates, hence `Int.tdiv`/`Int.tmod`.
* `digit_transitions.h` is not among the sources.  Its function
  `get_digit_transition` and its table `digit_tile_coords` are parameters
  (`gdt`, `coords`) of everything that uses them.
* `GPoint`, `GSize`, `GRect`, `GColor`, `TimeUnits` and `struct tm` come from the
  platform SDK; only the fields used by clock.c are kept.  The fields of `GPoint`
  and `GSize` are `int16_t` there: every store into one goes through `toInt16`
  (reduction modulo `2^16` into `-32768 .. 32767`).
* A graphics context is the list of the drawing calls made on it, oldest first.
-/

namespace Morph

/-! ## Machine integers -/

/-- An unsigned 8-bit `char`. -/
abbrev CChar := Fin 256

/-- Conversion of a C `int` to `char`: reduction modulo `2^8`. -/
def toChar (x : Int) : CChar := ⟨(x % 256).toNat, by omega⟩

/-- Integer promotion of a `char`. -/
def ofChar (c : CChar) : Int := (c.val : Int)

/-- Conversion of a C `int` to `int16_t`: reduction modulo `2^16` into
`-32768 .. 32767`. -/
def toInt16 (x : Int) : Int := (x + 32768) % 65536 - 32768

/-- The integers that an `int16_t` holds. -/
def fits_int16 (x : Int) : Prop := -32768 ≤ x ∧ x ≤ 32767

instance (x : Int) : Decidable (fits_int16 x) := by
  unfold fits_int16; infer_instance

/-! ## Platform types -/

/-- SDK point: a pair of `int16_t` coordinates. -/
structure GPoint where
  x : Int
  y : Int
deriving DecidableEq, Repr

/-- SDK size: `int16_t` width and height. -/
structure GSize where
  w : Int
  h : Int
deriving DecidableEq, Repr

/-- SDK rectangle. -/
structure GRect where
  origin : GPoint
  size : GSize
deriving DecidableEq, Repr

/-- The two fill colours clock.c uses. -/
inductive GColor where
  | GColorWhite
  | GColorFolly
deriving DecidableEq, Repr

/-- One drawing call received by a graphics context. -/
inductive DrawCall where
  | set_fill_color (color : GColor)
  | fill_rect (rect : GRect)
deriving DecidableEq, Repr

/-- A graphics context, as the calls made on it so far. -/
abbrev GContext := List DrawCall

/-- SDK call `graphics_context_set_fill_color(ctx, color)`. -/
def graphics_context_set_fill_color (ctx : GContext) (color : GColor) : GContext :=
  ctx ++ [DrawCall.set_fill_color color]

/-- SDK call `graphics_fill_rect(ctx, rect, 0, 0x0)`. -/
def graphics_fill_rect (ctx : GContext) (rect : GRect) : GContext :=
  ctx ++ [DrawCall.fill_rect rect]

/-- The fields of `struct tm` read by `clock_set_time`. -/
structure Tm where
  tm_sec : Int
  tm_min : Int
  tm_hour : Int
deriving DecidableEq, Repr

/-- SDK `TimeUnits` bit for seconds (`1 << 0`). -/
def SECOND_UNIT : Nat := 1

/-- SDK `TimeUnits` bit for minutes (`1 << 1`). -/
def MINUTE_UNIT : Nat := 2

/-- SDK `TimeUnits` bit for hours (`1 << 2`). -/
def HOUR_UNIT : Nat := 4

/-! ## clock.h -/

/-- Type `Digit` of clock.h: four `char` fields. -/
structure Digit where
  value : CChar
  prv_value : CChar
  anim : CChar
  tile_size : CChar
deriving DecidableEq, Repr

/-- Type `Clock` of clock.h with `WITH_DATE 0`; `hours0` is `hours[0]`, and so on. -/
structure Clock where
  hours0 : Digit
  hours1 : Digit
  minutes0 : Digit
  minutes1 : Digit
  seconds0 : Digit
  seconds1 : Digit
deriving DecidableEq, Repr

/-! ## clock.c -/

/-- Constant `s_time_tile_size` (clock.c 5). -/
def s_time_tile_size : Int := 7

/-- Constant `s_hours_tile_size` (clock.c 9). -/
def s_hours_tile_size : Int := 13

/-- Constant `s_minutes_tile_size` (clock.c 10). -/
def s_minutes_tile_size : Int := 7

/-- Function `digit_init` (clock.c 12-17). -/
def digit_init (tile_size : Int) : Digit :=
  { value := toChar 0
    prv_value := toChar 0
    anim := toChar tile_size
    tile_size := toChar tile_size }

/-- Function `digit_set_value` (clock.c 19-28). -/
def digit_set_value (digit : Digit) (value : Int) (animated : Bool) : Digit :=
  let digit :=
    if ofChar digit.value ≠ value then
      { digit with prv_value := digit.value, value := toChar value, anim := toChar 0 }
    else digit
  if !animated then { digit with anim := digit.tile_size } else digit

/-- The values of `lower`, `higher`, `alpha0`, `alpha1` after the optional swap
(clock.c 37-45). -/
def digit_draw_blend (digit : Digit) : Int × Int × Int × Int :=
  let lower := ofChar digit.prv_value
  let higher := ofChar digit.value
  let alpha0 := ofChar digit.anim
  let alpha1 := ofChar digit.tile_size - alpha0
  if higher < lower then (higher, lower, alpha1, alpha0) else (lower, higher, alpha0, alpha1)

/-- The values of `transition`, `alpha0`, `alpha1` when the loop starts
(clock.c 37-59). -/
def digit_draw_transition (gdt : Int → Int → Int) (digit : Digit) : Int × Int × Int :=
  match digit_draw_blend digit with
  | (lower, higher, alpha0, alpha1) =>
    let transition := gdt lower higher
    if transition = -1 then
      if ofChar digit.value < 9 then (ofChar digit.value, 0, ofChar digit.tile_size)
      else (12, ofChar digit.tile_size, 0)
    else (transition, alpha0, alpha1)

/-- The rectangle filled by iteration `i` of the loop (clock.c 61-69); the `int`
values are stored into the `int16_t` fields of `rect`. -/
def digit_draw_rect (coords : Int → GPoint) (tile_size transition alpha0 alpha1 : Int)
    (pos_x pos_y : Int) (i : Int) : GRect :=
  { origin :=
      { x := toInt16 (pos_x + alpha1 * (coords (28 * transition + i)).x
              + alpha0 * (coords (28 * transition + 14 + i)).x)
        y := toInt16 (pos_y + alpha1 * (coords (28 * transition + i)).y
              + alpha0 * (coords (28 * transition + 14 + i)).y) }
    size := { w := toInt16 tile_size, h := toInt16 tile_size } }

/-- The increment that ends `digit_draw` (clock.c 72-75, "next frame"). -/
def digit_next_frame (digit : Digit) : Digit :=
  if ofChar digit.anim < ofChar digit.tile_size then
    { digit with anim := toChar (ofChar digit.anim + 1) }
  else digit

/-- Function `digit_draw` (clock.c 36-76): the digit after the call and the context after
the fourteen fills. -/
def digit_draw (gdt : Int → Int → Int) (coords : Int → GPoint)
    (digit : Digit) (ctx : GContext) (pos_x pos_y : Int) : Digit × GContext :=
  match digit_draw_transition gdt digit with
  | (transition, alpha0, alpha1) =>
    let ctx := (List.range 14).foldl
      (fun (c : GContext) (i : Nat) => graphics_fill_rect c
        (digit_draw_rect coords (ofChar digit.tile_size) transition alpha0 alpha1
          pos_x pos_y (Int.ofNat i)))
      ctx
    (digit_next_frame digit, ctx)

/-- Function `clock_create` (clock.c 94-124). -/
def clock_create : Clock :=
  { hours0 := digit_init s_hours_tile_size
    hours1 := digit_init s_hours_tile_size
    minutes0 := digit_init s_minutes_tile_size
    minutes1 := digit_init s_minutes_tile_size
    seconds0 := digit_init s_time_tile_size
    seconds1 := digit_init s_time_tile_size }

/-- Function `clock_has_frame` (clock.c 130-133). -/
def clock_has_frame (clock : Clock) : Bool :=
  decide (ofChar clock.hours1.anim < ofChar clock.hours1.tile_size)
    || decide (ofChar clock.minutes1.anim < ofChar clock.minutes1.tile_size)

/-- Function `clock_set_time` (clock.c 158-179). -/
def clock_set_time (clock : Clock) (tick_time : Tm) (units_changed : Nat)
    (animated : Bool) : Clock :=
  if units_changed &&& SECOND_UNIT ≠ 0 then
    let clock := { clock with
      seconds0 := digit_set_value clock.seconds0 (tick_time.tm_sec.tdiv 10) animated }
    let clock := { clock with
      seconds1 := digit_set_value clock.seconds1 (tick_time.tm_sec.tmod 10) animated }
    if units_changed &&& MINUTE_UNIT ≠ 0 then
      let clock := { clock with
        minutes0 := digit_set_value clock.minutes0 (tick_time.tm_min.tdiv 10) animated }
      let clock := { clock with
        minutes1 := digit_set_value clock.minutes1 (tick_time.tm_min.tmod 10) animated }
      if units_changed &&& HOUR_UNIT ≠ 0 then
        let clock := { clock with
          hours0 := digit_set_value clock.hours0 (tick_time.tm_hour.tdiv 10) animated }
        let clock := { clock with
          hours1 := digit_set_value clock.hours1 (tick_time.tm_hour.tmod 10) animated }
        clock
      else clock
    else clock
  else clock

/-- Function `clock_draw` (clock.c 182-201, the `TIME_VARIATION1` branch). -/
def clock_draw (gdt : Int → Int → Int) (coords : Int → GPoint)
    (clock : Clock) (ctx : GContext) (bounds : GRect) : Clock × GContext :=
  let ctx := graphics_context_set_fill_color ctx GColor.GColorWhite
  let tiles_x : Int := 7
  let tiles_y : Int := 5
  let padding : Int := s_hours_tile_size + 2
  let offset_y : Int := 6
  let pos_x : Int := (bounds.size.w - tiles_x * s_hours_tile_size).tdiv 2
  let pos_y : Int := offset_y
    + (bounds.size.h - tiles_y * (s_hours_tile_size + s_minutes_tile_size) - padding).tdiv 2
  let ctx := graphics_context_set_fill_color ctx GColor.GColorFolly
  let r := digit_draw gdt coords clock.hours0 ctx pos_x pos_y
  let clock := { clock with hours0 := r.1 }
  let ctx := r.2
  let pos_x := pos_x + 4 * s_hours_tile_size
  let r := digit_draw gdt coords clock.hours1 ctx pos_x pos_y
  let clock := { clock with hours1 := r.1 }
  let ctx := r.2
  let pos_x : Int := (bounds.size.w - tiles_x * s_minutes_tile_size).tdiv 2
  let pos_y := pos_y + (tiles_y * s_hours_tile_size + padding)
  let ctx := graphics_context_set_fill_color ctx GColor.GColorWhite
  let r := digit_draw gdt coords clock.minutes0 ctx pos_x pos_y
  let clock := { clock with minutes0 := r.1 }
  let ctx := r.2
  let pos_x := pos_x + 4 * s_minutes_tile_size
  let r := digit_draw gdt coords clock.minutes1 ctx pos_x pos_y
  let clock := { clock with minutes1 := r.1 }
  let ctx := r.2
  (clock, ctx)

/-! ## Runs of the two state machines -/

/-- Successive `digit_draw` calls on one digit, one per origin of the list. -/
def digit_draw_many (gdt : Int → Int → Int) (coords : Int → GPoint) :
    Digit → GContext → List (Int × Int) → Digit × GContext
  | digit, ctx, [] => (digit, ctx)
  | digit, ctx, pos :: rest =>
    digit_draw_many gdt coords (digit_draw gdt coords digit ctx pos.1 pos.2).1
      (digit_draw gdt coords digit ctx pos.1 pos.2).2 rest

/-- A call the host makes on the clock between `clock_create` and `clock_destroy`. -/
inductive ClockCall where
  | set_time (tick_time : Tm) (units_changed : Nat) (animated : Bool)
  | draw (bounds : GRect)
deriving DecidableEq, Repr

/-- The clock and the context after a sequence of host calls. -/
def clock_run (gdt : Int → Int → Int) (coords : Int → GPoint) :
    Clock → GContext → List ClockCall → Clock × GContext
  | clock, ctx, [] => (clock, ctx)
  | clock, ctx, ClockCall.set_time tick_time units_changed animated :: rest =>
    clock_run gdt coords (clock_set_time clock tick_time units_changed animated) ctx rest
  | clock, ctx, ClockCall.draw bounds :: rest =>
    clock_run gdt coords (clock_draw gdt coords clock ctx bounds).1
      (clock_draw gdt coords clock ctx bounds).2 rest

/-- The range predicate of clock.h on `anim`: "from 0 to tile_size". -/
def digit_anim_in_range (digit : Digit) : Prop :=
  0 ≤ ofChar digit.anim ∧ ofChar digit.anim ≤ ofChar digit.tile_size

instance (digit : Digit) : Decidable (digit_anim_in_range digit) := by
  unfold digit_anim_in_range; infer_instance

/-- The range predicate on all six digits of a clock. -/
def clock_anim_in_range (clock : Clock) : Prop :=
  digit_anim_in_range clock.hours0 ∧ digit_anim_in_range clock.hours1 ∧
  digit_anim_in_range clock.minutes0 ∧ digit_anim_in_range clock.minutes1 ∧
  digit_anim_in_range clock.seconds0 ∧ digit_anim_in_range clock.seconds1

instance (clock : Clock) : Decidable (clock_anim_in_range clock) := by
  unfold clock_anim_in_range; infer_instance

/-! ## Sample data for closed instances -/

/-- A sample lookup: `i -> i+1` is entry `i` for `i < 9`, `0 -> 9` is entry 12, and no
other pair has an entry. -/
def sample_transition (lower higher : Int) : Int :=
  if higher = lower + 1 ∧ 0 ≤ lower ∧ lower < 9 then lower
  else if lower = 0 ∧ higher = 9 then 12
  else -1

/-- A sample table in which every entry differs from every other: entry `k` is the
point `(k, 2 * k)`. -/
def sample_coords (k : Int) : GPoint := { x := k, y := 2 * k }

/-! ## Basic facts -/

theorem ofChar_nonneg (c : CChar) : 0 ≤ ofChar c := by
  unfold ofChar; omega

theorem ofChar_lt (c : CChar) : ofChar c < 256 := by
  unfold ofChar; omega

theorem ofChar_toChar (x : Int) (h0 : 0 ≤ x) (h1 : x < 256) : ofChar (toChar x) = x := by
  unfold ofChar toChar
  simp only []
  omega

theorem toChar_ofChar (c : CChar) : toChar (ofChar c) = c := by
  unfold ofChar toChar
  apply Fin.ext
  simp only []
  omega

theorem ofChar_inj (a b : CChar) : ofChar a = ofChar b ↔ a = b := by
  constructor
  · intro h
    apply Fin.ext
    unfold ofChar at h
    omega
  · intro h; rw [h]

theorem toChar_zero : toChar 0 = (0 : CChar) := rfl

theorem toInt16_of_fits (x : Int) (h : fits_int16 x) : toInt16 x = x := by
  unfold fits_int16 at h
  unfold toInt16
  omega

theorem toInt16_ofChar (c : CChar) : toInt16 (ofChar c) = ofChar c := by
  have h0 := ofChar_nonneg c
  have h1 := ofChar_lt c
  exact toInt16_of_fits _ ⟨by omega, by omega⟩

/-! ## The digit state machine: `digit_set_value` -/

/-- C1. For every digit `d` and every new value `v1` of the field type that differs
from `d.value`, an animated `digit_set_value` yields the digit with
`prv_value = d.value`, `value = v1`, `anim = 0` and the same `tile_size`, whatever
`d.prv_value` and `d.anim` were. -/
theorem digit_set_value_animated_differing (d : Digit) (v1 : CChar) (h : v1 ≠ d.value) :
    digit_set_value d (ofChar v1) true
      = { value := v1, prv_value := d.value, anim := 0, tile_size := d.tile_size } := by
  have hne : ofChar d.value ≠ ofChar v1 := fun e => h ((ofChar_inj _ _).1 e).symm
  simp [digit_set_value, hne, toChar_ofChar, toChar_zero]

theorem digit_set_value_animated_differing_witness :
    (7 : CChar) ≠ (⟨3, 9, 4, 13⟩ : Digit).value ∧
    digit_set_value ⟨3, 9, 4, 13⟩ (ofChar 7) true
      = { value := 7, prv_value := 3, anim := 0, tile_size := 13 } :=
  ⟨by decide, digit_set_value_animated_differing ⟨3, 9, 4, 13⟩ 7 (by decide)⟩

/-- C2. For every digit `d`, in any prior state, and every value `v` of the field
type, a non-animated `digit_set_value` yields a digit with `value = v` and
`anim = tile_size`, the tile size being that of `d`; the digit is at rest after a
non-animated call with any `int` argument at all. -/
theorem digit_set_value_not_animated (d : Digit) (v : CChar) :
    (digit_set_value d (ofChar v) false).value = v ∧
    (digit_set_value d (ofChar v) false).anim = (digit_set_value d (ofChar v) false).tile_size ∧
    (digit_set_value d (ofChar v) false).tile_size = d.tile_size ∧
    ∀ n : Int, (digit_set_value d n false).anim = d.tile_size ∧
      (digit_set_value d n false).tile_size = d.tile_size := by
  refine ⟨?_, ?_, ?_, ?_⟩
  · by_cases e : ofChar d.value = ofChar v
    · have : d.value = v := (ofChar_inj _ _).1 e
      simp [digit_set_value, this]
    · simp [digit_set_value, e, toChar_ofChar]
  · by_cases e : ofChar d.value = ofChar v <;> simp [digit_set_value, e]
  · by_cases e : ofChar d.value = ofChar v <;> simp [digit_set_value, e]
  · intro n
    by_cases e : ofChar d.value = n <;> simp [digit_set_value, e]

/-- C5. An animated `digit_set_value` to the value the digit already holds returns
the digit unchanged; hence, for every digit and every value `v` of the field type,
two animated calls with `v` in a row give the same digit as one. -/
theorem digit_set_value_animated_same (d : Digit) :
    digit_set_value d (ofChar d.value) true = d ∧
    ∀ v : CChar, digit_set_value (digit_set_value d (ofChar v) true) (ofChar v) true
      = digit_set_value d (ofChar v) true := by
  have key : ∀ e : Digit, digit_set_value e (ofChar e.value) true = e := by
    intro e; simp [digit_set_value]
  refine ⟨key d, ?_⟩
  intro v
  by_cases e : ofChar d.value = ofChar v
  · have hv : d.value = v := (ofChar_inj _ _).1 e
    subst hv
    rw [key d, key d]
  · have hv : (digit_set_value d (ofChar v) true).value = v := by
      simp [digit_set_value, e, toChar_ofChar]
    have := key (digit_set_value d (ofChar v) true)
    rw [hv] at this
    exact this

/-! ## The digit state machine: `digit_draw` -/

theorem foldl_fill_rect (f : Nat → GRect) (l : List Nat) (ctx : GContext) :
    l.foldl (fun c i => graphics_fill_rect c (f i)) ctx
      = ctx ++ l.map (fun i => DrawCall.fill_rect (f i)) := by
  induction l generalizing ctx with
  | nil => simp
  | cons a l ih => rw [List.foldl_cons, ih]; simp [graphics_fill_rect]

theorem digit_draw_fst (gdt : Int → Int → Int) (coords : Int → GPoint) (d : Digit)
    (ctx : GContext) (x y : Int) :
    (digit_draw gdt coords d ctx x y).1 = digit_next_frame d := by
  rcases h : digit_draw_transition gdt d with ⟨t, a0, a1⟩
  simp only [digit_draw, h]

theorem digit_draw_snd (gdt : Int → Int → Int) (coords : Int → GPoint) (d : Digit)
    (ctx : GContext) (x y : Int) :
    (digit_draw gdt coords d ctx x y).2
      = ctx ++ (List.range 14).map (fun (i : Nat) => DrawCall.fill_rect
          (digit_draw_rect coords (ofChar d.tile_size) (digit_draw_transition gdt d).1
            (digit_draw_transition gdt d).2.1 (digit_draw_transition gdt d).2.2 x y
            (Int.ofNat i))) := by
  rcases h : digit_draw_transition gdt d with ⟨t, a0, a1⟩
  simp only [digit_draw, h]
  exact foldl_fill_rect _ _ _

theorem digit_draw_anim (gdt : Int → Int → Int) (coords : Int → GPoint) (d : Digit)
    (ctx : GContext) (x y : Int) :
    ofChar (digit_draw gdt coords d ctx x y).1.anim
      = if ofChar d.anim < ofChar d.tile_size then ofChar d.anim + 1 else ofChar d.anim := by
  rw [digit_draw_fst, digit_next_frame]
  have h0 := ofChar_nonneg d.anim
  have h1 := ofChar_lt d.tile_size
  split
  · simp only []
    exact ofChar_toChar _ (by omega) (by omega)
  · rfl

theorem digit_draw_frame (gdt : Int → Int → Int) (coords : Int → GPoint) (d : Digit)
    (ctx : GContext) (x y : Int) :
    (digit_draw gdt coords d ctx x y).1.value = d.value ∧
    (digit_draw gdt coords d ctx x y).1.prv_value = d.prv_value ∧
    (digit_draw gdt coords d ctx x y).1.tile_size = d.tile_size := by
  rw [digit_draw_fst, digit_next_frame]
  split <;> simp

theorem digit_draw_many_spec (gdt : Int → Int → Int) (coords : Int → GPoint)
    (ps : List (Int × Int)) :
    ∀ (d : Digit) (ctx : GContext), ofChar d.anim ≤ ofChar d.tile_size →
      ofChar (digit_draw_many gdt coords d ctx ps).1.anim
        = min (ofChar d.anim + (ps.length : Int)) (ofChar d.tile_size) ∧
      (digit_draw_many gdt coords d ctx ps).1.value = d.value ∧
      (digit_draw_many gdt coords d ctx ps).1.prv_value = d.prv_value ∧
      (digit_draw_many gdt coords d ctx ps).1.tile_size = d.tile_size := by
  induction ps with
  | nil =>
    intro d ctx h
    simp [digit_draw_many, h]
  | cons p ps ih =>
    intro d ctx h
    have ha := digit_draw_anim gdt coords d ctx p.1 p.2
    obtain ⟨f1, f2, f3⟩ := digit_draw_frame gdt coords d ctx p.1 p.2
    have hle : ofChar (digit_draw gdt coords d ctx p.1 p.2).1.anim
        ≤ ofChar (digit_draw gdt coords d ctx p.1 p.2).1.tile_size := by
      rw [ha, f3]; split <;> omega
    obtain ⟨i1, i2, i3, i4⟩ := ih _ (digit_draw gdt coords d ctx p.1 p.2).2 hle
    simp only [digit_draw_many, List.length_cons]
    refine ⟨?_, by rw [i2, f1], by rw [i3, f2], by rw [i4, f3]⟩
    rw [i1, ha, f3]
    push_cast
    split <;> omega

/-- C3. A digit that has just received an animated `digit_set_value` to a differing
value has, after `k` successive `digit_draw` calls (at any origins), `anim` equal to
`min k tile_size`: exactly `tile_size` after `tile_size` draws and after any
number of further draws; and a `digit_draw` never changes `value`, `prv_value` or
`tile_size`. -/
theorem digit_draw_advances_to_tile_size (gdt : Int → Int → Int) (coords : Int → GPoint)
    (d0 : Digit) (v : Int) (h : ofChar d0.value ≠ v) :
    (digit_set_value d0 v true).anim = 0 ∧
    (∀ (ctx : GContext) (ps : List (Int × Int)),
      ofChar (digit_draw_many gdt coords (digit_set_value d0 v true) ctx ps).1.anim
        = min (ps.length : Int) (ofChar d0.tile_size) ∧
      (ofChar d0.tile_size ≤ (ps.length : Int) →
        (digit_draw_many gdt coords (digit_set_value d0 v true) ctx ps).1.anim
          = d0.tile_size) ∧
      (digit_draw_many gdt coords (digit_set_value d0 v true) ctx ps).1.value
        = (digit_set_value d0 v true).value ∧
      (digit_draw_many gdt coords (digit_set_value d0 v true) ctx ps).1.prv_value
        = (digit_set_value d0 v true).prv_value ∧
      (digit_draw_many gdt coords (digit_set_value d0 v true) ctx ps).1.tile_size
        = d0.tile_size) ∧
    (∀ (d : Digit) (ctx : GContext) (x y : Int),
      (digit_draw gdt coords d ctx x y).1.value = d.value ∧
      (digit_draw gdt coords d ctx x y).1.prv_value = d.prv_value ∧
      (digit_draw gdt coords d ctx x y).1.tile_size = d.tile_size) := by
  have e : digit_set_value d0 v true
      = { d0 with prv_value := d0.value, value := toChar v, anim := toChar 0 } := by
    simp [digit_set_value, h]
  have ea : ofChar (digit_set_value d0 v true).anim = 0 := by rw [e]; rfl
  have et : (digit_set_value d0 v true).tile_size = d0.tile_size := by rw [e]
  refine ⟨by rw [e]; rfl, ?_, fun d ctx x y => digit_draw_frame gdt coords d ctx x y⟩
  intro ctx ps
  have hle : ofChar (digit_set_value d0 v true).anim
      ≤ ofChar (digit_set_value d0 v true).tile_size := by
    rw [ea]; exact ofChar_nonneg _
  obtain ⟨i1, i2, i3, i4⟩ := digit_draw_many_spec gdt coords ps _ ctx hle
  rw [ea, et] at i1
  have i1b : ofChar (digit_draw_many gdt coords (digit_set_value d0 v true) ctx ps).1.anim
      = min (ps.length : Int) (ofChar d0.tile_size) := by rw [i1]; simp
  refine ⟨i1b, ?_, i2, i3, by rw [i4, et]⟩
  intro hk
  apply (ofChar_inj _ _).1
  rw [i1b]
  omega

theorem digit_draw_advances_to_tile_size_witness :
    ofChar (⟨3, 9, 2, 7⟩ : Digit).value ≠ 4 ∧
    ofChar (digit_draw_many sample_transition sample_coords
        (digit_set_value ⟨3, 9, 2, 7⟩ 4 true) [] [(0, 0), (5, 5), (0, 0)]).1.anim = 3 ∧
    (digit_draw_many sample_transition sample_coords
        (digit_set_value ⟨3, 9, 2, 7⟩ 4 true) []
        [(0, 0), (1, 0), (2, 0), (3, 0), (4, 0), (5, 0), (6, 0), (7, 0), (8, 0)]).1.anim = 7 :=
  ⟨by decide,
   ((digit_draw_advances_to_tile_size sample_transition sample_coords ⟨3, 9, 2, 7⟩ 4
      (by decide)).2.1 [] [(0, 0), (5, 5), (0, 0)]).1.trans (by decide),
   ((digit_draw_advances_to_tile_size sample_transition sample_coords ⟨3, 9, 2, 7⟩ 4
      (by decide)).2.1 []
      [(0, 0), (1, 0), (2, 0), (3, 0), (4, 0), (5, 0), (6, 0), (7, 0), (8, 0)]).2.1
      (by decide)⟩

/-! ## The range invariant -/

theorem digit_set_value_in_range (d : Digit) (v : Int) (animated : Bool)
    (h : digit_anim_in_range d) : digit_anim_in_range (digit_set_value d v animated) := by
  unfold digit_anim_in_range at *
  have ht := ofChar_nonneg d.tile_size
  have hz : ofChar (toChar 0) = 0 := rfl
  by_cases e : ofChar d.value = v <;> cases animated <;>
    simp [digit_set_value, e, hz, ht, h.1, h.2]

theorem digit_draw_in_range (gdt : Int → Int → Int) (coords : Int → GPoint) (d : Digit)
    (ctx : GContext) (x y : Int) (h : digit_anim_in_range d) :
    digit_anim_in_range (digit_draw gdt coords d ctx x y).1 := by
  unfold digit_anim_in_range at *
  rw [digit_draw_anim, (digit_draw_frame gdt coords d ctx x y).2.2]
  split <;> omega

theorem clock_draw_fst (gdt : Int → Int → Int) (coords : Int → GPoint) (c : Clock)
    (ctx : GContext) (bounds : GRect) :
    (clock_draw gdt coords c ctx bounds).1
      = { hours0 := digit_next_frame c.hours0
          hours1 := digit_next_frame c.hours1
          minutes0 := digit_next_frame c.minutes0
          minutes1 := digit_next_frame c.minutes1
          seconds0 := c.seconds0
          seconds1 := c.seconds1 } := by
  simp only [clock_draw, digit_draw_fst]

theorem clock_set_time_in_range (c : Clock) (tick_time : Tm) (units_changed : Nat)
    (animated : Bool) (h : clock_anim_in_range c) :
    clock_anim_in_range (clock_set_time c tick_time units_changed animated) := by
  obtain ⟨h1, h2, h3, h4, h5, h6⟩ := h
  unfold clock_set_time
  split
  · split
    · split
      · exact ⟨digit_set_value_in_range _ _ _ h1, digit_set_value_in_range _ _ _ h2,
          digit_set_value_in_range _ _ _ h3, digit_set_value_in_range _ _ _ h4,
          digit_set_value_in_range _ _ _ h5, digit_set_value_in_range _ _ _ h6⟩
      · exact ⟨h1, h2, digit_set_value_in_range _ _ _ h3, digit_set_value_in_range _ _ _ h4,
          digit_set_value_in_range _ _ _ h5, digit_set_value_in_range _ _ _ h6⟩
    · exact ⟨h1, h2, h3, h4, digit_set_value_in_range _ _ _ h5,
        digit_set_value_in_range _ _ _ h6⟩
  · exact ⟨h1, h2, h3, h4, h5, h6⟩

theorem clock_draw_in_range (gdt : Int → Int → Int) (coords : Int → GPoint) (c : Clock)
    (ctx : GContext) (bounds : GRect) (h : clock_anim_in_range c) :
    clock_anim_in_range (clock_draw gdt coords c ctx bounds).1 := by
  obtain ⟨h1, h2, h3, h4, h5, h6⟩ := h
  rw [clock_draw_fst]
  have step : ∀ d : Digit, digit_anim_in_range d → digit_anim_in_range (digit_next_frame d) := by
    intro d hd
    have := digit_draw_in_range gdt coords d [] 0 0 hd
    rwa [digit_draw_fst] at this
  exact ⟨step _ h1, step _ h2, step _ h3, step _ h4, h5, h6⟩

theorem clock_run_in_range (gdt : Int → Int → Int) (coords : Int → GPoint)
    (calls : List ClockCall) :
    ∀ (c : Clock) (ctx : GContext), clock_anim_in_range c →
      clock_anim_in_range (clock_run gdt coords c ctx calls).1 := by
  induction calls with
  | nil => intro c ctx h; exact h
  | cons call rest ih =>
    intro c ctx h
    cases call with
    | set_time tick_time units_changed animated =>
      exact ih _ ctx (clock_set_time_in_range c tick_time units_changed animated h)
    | draw bounds =>
      exact ih _ _ (clock_draw_in_range gdt coords c ctx bounds h)

/-- C4. The predicate `0 <= anim <= tile_size` holds after `digit_init` with any tile
size, is preserved by `digit_set_value` (every value, either flag) and by
`digit_draw`, and therefore holds for all six digits of the clock after any sequence
of `clock_set_time` and `clock_draw` calls that follows `clock_create`. -/
theorem anim_in_range_invariant (gdt : Int → Int → Int) (coords : Int → GPoint) :
    (∀ tile_size : Int, digit_anim_in_range (digit_init tile_size)) ∧
    (∀ (d : Digit) (v : Int) (animated : Bool),
      digit_anim_in_range d → digit_anim_in_range (digit_set_value d v animated)) ∧
    (∀ (d : Digit) (ctx : GContext) (x y : Int),
      digit_anim_in_range d → digit_anim_in_range (digit_draw gdt coords d ctx x y).1) ∧
    (∀ (ctx : GContext) (calls : List ClockCall),
      clock_anim_in_range (clock_run gdt coords clock_create ctx calls).1) := by
  have hinit : ∀ tile_size : Int, digit_anim_in_range (digit_init tile_size) := by
    intro tile_size
    exact ⟨ofChar_nonneg _, le_refl _⟩
  refine ⟨hinit, digit_set_value_in_range, digit_draw_in_range gdt coords, ?_⟩
  intro ctx calls
  exact clock_run_in_range gdt coords calls clock_create ctx
    ⟨hinit _, hinit _, hinit _, hinit _, hinit _, hinit _⟩

theorem anim_in_range_invariant_witness :
    digit_anim_in_range (⟨3, 9, 4, 13⟩ : Digit) ∧
    digit_anim_in_range (digit_set_value ⟨3, 9, 4, 13⟩ 5 true) ∧
    digit_anim_in_range (digit_draw sample_transition sample_coords ⟨3, 9, 4, 13⟩ [] 0 0).1 :=
  ⟨by decide,
   (anim_in_range_invariant sample_transition sample_coords).2.1 ⟨3, 9, 4, 13⟩ 5 true
     (by decide),
   (anim_in_range_invariant sample_transition sample_coords).2.2.1 ⟨3, 9, 4, 13⟩ [] 0 0
     (by decide)⟩

/-! ## Drawing at rest -/

theorem digit_next_frame_at_rest (d : Digit) (h : d.anim = d.tile_size) :
    digit_next_frame d = d := by
  simp [digit_next_frame, h]

theorem digit_draw_snd_append (gdt : Int → Int → Int) (coords : Int → GPoint) (d : Digit)
    (ctx : GContext) (x y : Int) :
    (digit_draw gdt coords d ctx x y).2 = ctx ++ (digit_draw gdt coords d [] x y).2 := by
  simp only [digit_draw_snd, List.nil_append]

theorem clock_draw_snd_append (gdt : Int → Int → Int) (coords : Int → GPoint) (c : Clock)
    (ctx : GContext) (bounds : GRect) :
    (clock_draw gdt coords c ctx bounds).2 = ctx ++ (clock_draw gdt coords c [] bounds).2 := by
  simp only [clock_draw, digit_draw_snd, graphics_context_set_fill_color, List.nil_append,
    List.append_assoc]

/-- C6. Drawing is idempotent at rest.  For a digit with `anim = tile_size`, any origin
and any transition table, `digit_draw` returns the digit unchanged and appends to the
context fourteen `fill_rect` calls; a second `digit_draw` appends the same fourteen
calls again.  For a clock whose four displayed digits are at rest, `clock_draw`
returns the clock unchanged, and a second `clock_draw` with the same bounds appends
the same calls as the first. -/
theorem draw_idempotent_at_rest (gdt : Int → Int → Int) (coords : Int → GPoint) :
    (∀ (d : Digit) (ctx : GContext) (x y : Int), d.anim = d.tile_size →
      (digit_draw gdt coords d ctx x y).1 = d ∧
      (digit_draw gdt coords d [] x y).2.length = 14 ∧
      (∀ call ∈ (digit_draw gdt coords d [] x y).2, ∃ rect, call = DrawCall.fill_rect rect) ∧
      (digit_draw gdt coords d ctx x y).2 = ctx ++ (digit_draw gdt coords d [] x y).2 ∧
      (digit_draw gdt coords (digit_draw gdt coords d ctx x y).1
          (digit_draw gdt coords d ctx x y).2 x y).2
        = (ctx ++ (digit_draw gdt coords d [] x y).2) ++ (digit_draw gdt coords d [] x y).2) ∧
    (∀ (c : Clock) (ctx : GContext) (bounds : GRect),
      c.hours0.anim = c.hours0.tile_size → c.hours1.anim = c.hours1.tile_size →
      c.minutes0.anim = c.minutes0.tile_size → c.minutes1.anim = c.minutes1.tile_size →
      (clock_draw gdt coords c ctx bounds).1 = c ∧
      (clock_draw gdt coords c ctx bounds).2 = ctx ++ (clock_draw gdt coords c [] bounds).2 ∧
      (clock_draw gdt coords (clock_draw gdt coords c ctx bounds).1
          (clock_draw gdt coords c ctx bounds).2 bounds).2
        = (ctx ++ (clock_draw gdt coords c [] bounds).2)
            ++ (clock_draw gdt coords c [] bounds).2) := by
  constructor
  · intro d ctx x y h
    have h1 : (digit_draw gdt coords d ctx x y).1 = d := by
      rw [digit_draw_fst, digit_next_frame_at_rest d h]
    refine ⟨h1, ?_, ?_, digit_draw_snd_append gdt coords d ctx x y, ?_⟩
    · simp [digit_draw_snd]
    · intro call hc
      rw [digit_draw_snd] at hc
      simp only [List.nil_append, List.mem_map] at hc
      obtain ⟨i, _, hi⟩ := hc
      exact ⟨_, hi.symm⟩
    · rw [h1, digit_draw_snd_append gdt coords d (digit_draw gdt coords d ctx x y).2,
        digit_draw_snd_append gdt coords d ctx]
  · intro c ctx bounds h1 h2 h3 h4
    have hc : (clock_draw gdt coords c ctx bounds).1 = c := by
      rw [clock_draw_fst, digit_next_frame_at_rest _ h1, digit_next_frame_at_rest _ h2,
        digit_next_frame_at_rest _ h3, digit_next_frame_at_rest _ h4]
    refine ⟨hc, clock_draw_snd_append gdt coords c ctx bounds, ?_⟩
    rw [hc, clock_draw_snd_append gdt coords c (clock_draw gdt coords c ctx bounds).2,
      clock_draw_snd_append gdt coords c ctx]

theorem draw_idempotent_at_rest_witness :
    (⟨3, 2, 13, 13⟩ : Digit).anim = (⟨3, 2, 13, 13⟩ : Digit).tile_size ∧
    (digit_draw sample_transition sample_coords ⟨3, 2, 13, 13⟩ [] 4 6).1 = ⟨3, 2, 13, 13⟩ ∧
    (digit_draw sample_transition sample_coords
        (digit_draw sample_transition sample_coords ⟨3, 2, 13, 13⟩ [] 4 6).1
        (digit_draw sample_transition sample_coords ⟨3, 2, 13, 13⟩ [] 4 6).2 4 6).2
      = ([] ++ (digit_draw sample_transition sample_coords ⟨3, 2, 13, 13⟩ [] 4 6).2)
          ++ (digit_draw sample_transition sample_coords ⟨3, 2, 13, 13⟩ [] 4 6).2 ∧
    (clock_draw sample_transition sample_coords clock_create [] ⟨⟨0, 0⟩, ⟨144, 168⟩⟩).1
      = clock_create :=
  ⟨rfl,
   ((draw_idempotent_at_rest sample_transition sample_coords).1 ⟨3, 2, 13, 13⟩ [] 4 6 rfl).1,
   ((draw_idempotent_at_rest sample_transition sample_coords).1
      ⟨3, 2, 13, 13⟩ [] 4 6 rfl).2.2.2.2,
   ((draw_idempotent_at_rest sample_transition sample_coords).2 clock_create []
      ⟨⟨0, 0⟩, ⟨144, 168⟩⟩ rfl rfl rfl rfl).1⟩

/-! ## The interpolation of `digit_draw` -/

theorem digit_draw_blend_ascending (d : Digit) (h : ofChar d.prv_value ≤ ofChar d.value) :
    digit_draw_blend d
      = (ofChar d.prv_value, ofChar d.value, ofChar d.anim,
          ofChar d.tile_size - ofChar d.anim) := by
  simp [digit_draw_blend, not_lt.mpr h]

theorem digit_draw_blend_descending (d : Digit) (h : ofChar d.value < ofChar d.prv_value) :
    digit_draw_blend d
      = (ofChar d.value, ofChar d.prv_value, ofChar d.tile_size - ofChar d.anim,
          ofChar d.anim) := by
  simp [digit_draw_blend, h]

theorem digit_draw_blend_min_max (d : Digit) :
    (digit_draw_blend d).1 = min (ofChar d.prv_value) (ofChar d.value) ∧
    (digit_draw_blend d).2.1 = max (ofChar d.prv_value) (ofChar d.value) := by
  by_cases h : ofChar d.value < ofChar d.prv_value
  · rw [digit_draw_blend_descending d h]
    exact ⟨by simp [min_eq_right (le_of_lt h)], by simp [max_eq_left (le_of_lt h)]⟩
  · have h2 := not_lt.mp h
    rw [digit_draw_blend_ascending d h2]
    exact ⟨by simp [min_eq_left h2], by simp [max_eq_right h2]⟩

theorem digit_draw_transition_eq (gdt : Int → Int → Int) (d : Digit) :
    digit_draw_transition gdt d
      = if gdt (digit_draw_blend d).1 (digit_draw_blend d).2.1 = -1 then
          if ofChar d.value < 9 then (ofChar d.value, 0, ofChar d.tile_size)
          else (12, ofChar d.tile_size, 0)
        else (gdt (digit_draw_blend d).1 (digit_draw_blend d).2.1,
          (digit_draw_blend d).2.2.1, (digit_draw_blend d).2.2.2) := by
  rcases h : digit_draw_blend d with ⟨lo, hi, a0, a1⟩
  simp only [digit_draw_transition, h]

theorem digit_draw_transition_congr (gdt gdt2 : Int → Int → Int) (d : Digit)
    (h : gdt2 (min (ofChar d.prv_value) (ofChar d.value))
            (max (ofChar d.prv_value) (ofChar d.value))
          = gdt (min (ofChar d.prv_value) (ofChar d.value))
              (max (ofChar d.prv_value) (ofChar d.value))) :
    digit_draw_transition gdt2 d = digit_draw_transition gdt d := by
  rw [digit_draw_transition_eq, digit_draw_transition_eq, (digit_draw_blend_min_max d).1,
    (digit_draw_blend_min_max d).2, h]

/-- C8. A descending animation is the ascending transition played in reverse: for
values `a < b` with a table entry for `(a, b)`, every tile size and every `p` with
`p <= tile_size`, `digit_draw` of the digit (`prv_value = b`, `value = a`, `anim = p`)
appends the same calls as `digit_draw` of the digit (`prv_value = a`, `value = b`,
`anim = tile_size - p`).  The lookup is made at the minimum and the maximum of
`prv_value` and `value`, first argument at most the second, and at no other pair:
`digit_draw` is the same for two lookups that agree there. -/
theorem digit_draw_descending_is_reverse (gdt : Int → Int → Int) (coords : Int → GPoint) :
    (∀ (a b ts p : CChar) (ctx : GContext) (x y : Int),
      ofChar a < ofChar b → gdt (ofChar a) (ofChar b) ≠ -1 → ofChar p ≤ ofChar ts →
      (digit_draw gdt coords { value := a, prv_value := b, anim := p, tile_size := ts }
          ctx x y).2
        = (digit_draw gdt coords
            { value := b, prv_value := a, anim := toChar (ofChar ts - ofChar p),
              tile_size := ts } ctx x y).2) ∧
    (∀ d : Digit,
      (digit_draw_blend d).1 = min (ofChar d.prv_value) (ofChar d.value) ∧
      (digit_draw_blend d).2.1 = max (ofChar d.prv_value) (ofChar d.value) ∧
      (digit_draw_blend d).1 ≤ (digit_draw_blend d).2.1) ∧
    (∀ (d : Digit) (gdt2 : Int → Int → Int) (ctx : GContext) (x y : Int),
      gdt2 (min (ofChar d.prv_value) (ofChar d.value))
          (max (ofChar d.prv_value) (ofChar d.value))
        = gdt (min (ofChar d.prv_value) (ofChar d.value))
            (max (ofChar d.prv_value) (ofChar d.value)) →
      digit_draw gdt2 coords d ctx x y = digit_draw gdt coords d ctx x y) := by
  refine ⟨?_, ?_, ?_⟩
  · intro a b ts p ctx x y hab hf hp
    have hp0 := ofChar_nonneg p
    have hts := ofChar_lt ts
    have hq : ofChar (toChar (ofChar ts - ofChar p)) = ofChar ts - ofChar p :=
      ofChar_toChar _ (by omega) (by omega)
    have t1 : digit_draw_transition gdt
        { value := a, prv_value := b, anim := p, tile_size := ts }
        = (gdt (ofChar a) (ofChar b), ofChar ts - ofChar p, ofChar p) := by
      rw [digit_draw_transition_eq, digit_draw_blend_descending _ hab]
      simp [hf]
    have t2 : digit_draw_transition gdt
        { value := b, prv_value := a, anim := toChar (ofChar ts - ofChar p), tile_size := ts }
        = (gdt (ofChar a) (ofChar b), ofChar ts - ofChar p, ofChar p) := by
      rw [digit_draw_transition_eq, digit_draw_blend_ascending _ (le_of_lt hab)]
      simp [hf, hq]
    rw [digit_draw_snd, digit_draw_snd, t1, t2]
  · intro d
    obtain ⟨h1, h2⟩ := digit_draw_blend_min_max d
    refine ⟨h1, h2, ?_⟩
    rw [h1, h2]
    exact le_trans (min_le_left _ _) (le_max_left _ _)
  · intro d gdt2 ctx x y h
    apply Prod.ext
    · rw [digit_draw_fst, digit_draw_fst]
    · rw [digit_draw_snd, digit_draw_snd, digit_draw_transition_congr gdt gdt2 d h]

theorem digit_draw_descending_is_reverse_witness :
    ofChar 3 < ofChar 4 ∧ sample_transition (ofChar 3) (ofChar 4) ≠ -1 ∧
    ofChar 2 ≤ ofChar 7 ∧
    (digit_draw sample_transition sample_coords
        { value := 3, prv_value := 4, anim := 2, tile_size := 7 } [] 10 20).2
      = (digit_draw sample_transition sample_coords
          { value := 4, prv_value := 3, anim := toChar (ofChar 7 - ofChar 2), tile_size := 7 }
          [] 10 20).2 :=
  ⟨by decide, by decide, by decide,
   (digit_draw_descending_is_reverse sample_transition sample_coords).1 3 4 7 2 [] 10 20
     (by decide) (by decide) (by decide)⟩

/-- C10, as stated, fails.  The digit `2 -> 9` at tile size 7 has no entry in the
sample lookup and its committed value is 9; `digit_draw` takes transition 12 with
`alpha0 = 7`, the weight of the destination tiles `coords[28 * 12 + 14 + i]`, and
`alpha1 = 0`, the weight of the source tiles `coords[28 * 12 + i]`, and what it
appends is not the list of tiles at `origin + tile_size * coords[28 * 12 + i]`: the
first tile is filled at `x = 7 * 350 = 2450`, not at `7 * 336 = 2352`. -/
theorem digit_draw_fallback_nine_not_source :
    (⟨9, 2, 0, 7⟩ : Digit).value = 9 ∧
    sample_transition (min (ofChar (⟨9, 2, 0, 7⟩ : Digit).prv_value)
        (ofChar (⟨9, 2, 0, 7⟩ : Digit).value))
      (max (ofChar (⟨9, 2, 0, 7⟩ : Digit).prv_value)
        (ofChar (⟨9, 2, 0, 7⟩ : Digit).value)) = -1 ∧
    digit_draw_transition sample_transition ⟨9, 2, 0, 7⟩ = (12, 7, 0) ∧
    (digit_draw sample_transition sample_coords ⟨9, 2, 0, 7⟩ [] 0 0).2.head?
      = some (DrawCall.fill_rect
          { origin := { x := 2450, y := 4900 }, size := { w := 7, h := 7 } }) ∧
    (digit_draw sample_transition sample_coords ⟨9, 2, 0, 7⟩ [] 0 0).2
      ≠ [] ++ (List.range 14).map (fun (i : Nat) => DrawCall.fill_rect
          { origin :=
              { x := 0 + ofChar (⟨9, 2, 0, 7⟩ : Digit).tile_size
                      * (sample_coords (28 * 12 + i)).x
                y := 0 + ofChar (⟨9, 2, 0, 7⟩ : Digit).tile_size
                      * (sample_coords (28 * 12 + i)).y }
            size := { w := ofChar (⟨9, 2, 0, 7⟩ : Digit).tile_size,
                      h := ofChar (⟨9, 2, 0, 7⟩ : Digit).tile_size } }) := by
  refine ⟨rfl, by decide, by decide, by decide, by decide⟩

/-- C10, amended.  In the fallback for a pair without table entry when the committed
value is not below 9, `digit_draw` takes the `0 -> 9` transition (index 12) with
`alpha0 = tile_size`, the weight of the destination tiles `coords[28 * 12 + 14 + i]`,
and `alpha1 = 0`, the weight of the source tiles `coords[28 * 12 + i]`; tile `i` is
filled at the `int16_t` value of `origin + tile_size * coords[28 * 12 + 14 + i]`, the
settled shape of 9, that is at the sum itself whenever the fourteen sums fit an
`int16_t`. -/
theorem digit_draw_fallback_nine (gdt : Int → Int → Int) (coords : Int → GPoint)
    (d : Digit) (ctx : GContext) (x y : Int)
    (hv : ¬ ofChar d.value < 9)
    (hnone : gdt (min (ofChar d.prv_value) (ofChar d.value))
      (max (ofChar d.prv_value) (ofChar d.value)) = -1) :
    digit_draw_transition gdt d = (12, ofChar d.tile_size, 0) ∧
    (digit_draw gdt coords d ctx x y).2
      = ctx ++ (List.range 14).map (fun (i : Nat) => DrawCall.fill_rect
          { origin :=
              { x := toInt16 (x + 0 * (coords (28 * 12 + i)).x
                      + ofChar d.tile_size * (coords (28 * 12 + 14 + i)).x)
                y := toInt16 (y + 0 * (coords (28 * 12 + i)).y
                      + ofChar d.tile_size * (coords (28 * 12 + 14 + i)).y) }
            size := { w := ofChar d.tile_size, h := ofChar d.tile_size } }) ∧
    (digit_draw gdt coords d ctx x y).2
      = ctx ++ (List.range 14).map (fun (i : Nat) => DrawCall.fill_rect
          { origin :=
              { x := toInt16 (x + ofChar d.tile_size * (coords (28 * 12 + 14 + i)).x)
                y := toInt16 (y + ofChar d.tile_size * (coords (28 * 12 + 14 + i)).y) }
            size := { w := ofChar d.tile_size, h := ofChar d.tile_size } }) ∧
    ((∀ i : Nat, i < 14 →
        fits_int16 (x + ofChar d.tile_size * (coords (28 * 12 + 14 + i)).x) ∧
        fits_int16 (y + ofChar d.tile_size * (coords (28 * 12 + 14 + i)).y)) →
      (digit_draw gdt coords d ctx x y).2
        = ctx ++ (List.range 14).map (fun (i : Nat) => DrawCall.fill_rect
            { origin :=
                { x := x + ofChar d.tile_size * (coords (28 * 12 + 14 + i)).x
                  y := y + ofChar d.tile_size * (coords (28 * 12 + 14 + i)).y }
              size := { w := ofChar d.tile_size, h := ofChar d.tile_size } })) := by
  have key : digit_draw_transition gdt d = (12, ofChar d.tile_size, 0) := by
    rw [digit_draw_transition_eq, (digit_draw_blend_min_max d).1,
      (digit_draw_blend_min_max d).2, hnone]
    simp [hv]
  have main : (digit_draw gdt coords d ctx x y).2
      = ctx ++ (List.range 14).map (fun (i : Nat) => DrawCall.fill_rect
          { origin :=
              { x := toInt16 (x + ofChar d.tile_size * (coords (28 * 12 + 14 + i)).x)
                y := toInt16 (y + ofChar d.tile_size * (coords (28 * 12 + 14 + i)).y) }
            size := { w := ofChar d.tile_size, h := ofChar d.tile_size } }) := by
    rw [digit_draw_snd, key]
    simp only [digit_draw_rect, Int.ofNat_eq_coe, toInt16_ofChar, zero_mul, add_zero]
  refine ⟨key, ?_, main, ?_⟩
  · rw [digit_draw_snd, key]
    simp only [digit_draw_rect, Int.ofNat_eq_coe, toInt16_ofChar]
  · intro hfit
    rw [main]
    congr 1
    apply List.map_congr_left
    intro i hi
    obtain ⟨fx, fy⟩ := hfit i (List.mem_range.mp hi)
    rw [toInt16_of_fits _ fx, toInt16_of_fits _ fy]

theorem digit_draw_fallback_nine_witness :
    ¬ ofChar (⟨9, 2, 0, 7⟩ : Digit).value < 9 ∧
    sample_transition (min (ofChar (⟨9, 2, 0, 7⟩ : Digit).prv_value)
        (ofChar (⟨9, 2, 0, 7⟩ : Digit).value))
      (max (ofChar (⟨9, 2, 0, 7⟩ : Digit).prv_value)
        (ofChar (⟨9, 2, 0, 7⟩ : Digit).value)) = -1 ∧
    (digit_draw sample_transition sample_coords ⟨9, 2, 0, 7⟩ [] 0 0).2
      = [] ++ (List.range 14).map (fun (i : Nat) => DrawCall.fill_rect
          { origin :=
              { x := 0 + ofChar 7 * (sample_coords (28 * 12 + 14 + i)).x
                y := 0 + ofChar 7 * (sample_coords (28 * 12 + 14 + i)).y }
            size := { w := ofChar 7, h := ofChar 7 } }) :=
  ⟨by decide, by decide,
   (digit_draw_fallback_nine sample_transition sample_coords ⟨9, 2, 0, 7⟩ [] 0 0
      (by decide) (by decide)).2.2.2 (by decide)⟩

/-! ## The clock aggregate: `clock_has_frame` and `clock_set_time` -/

/-- C11. For every clock, `clock_has_frame` is true if and only if `hours[1]` or
`minutes[1]` is animating (`anim < tile_size`); two clocks with the same `hours[1]`
and `minutes[1]` get the same answer, whatever their `hours[0]`, `minutes[0]` and
seconds digits are. -/
theorem clock_has_frame_iff (c : Clock) :
    (clock_has_frame c = true ↔
      (ofChar c.hours1.anim < ofChar c.hours1.tile_size
        ∨ ofChar c.minutes1.anim < ofChar c.minutes1.tile_size)) ∧
    (∀ h0 m0 s0 s1 : Digit,
      clock_has_frame
          { hours0 := h0, hours1 := c.hours1, minutes0 := m0, minutes1 := c.minutes1,
            seconds0 := s0, seconds1 := s1 }
        = clock_has_frame c) := by
  constructor
  · simp [clock_has_frame]
  · intro h0 m0 s0 s1
    rfl

theorem clock_set_time_no_second (c : Clock) (tick_time : Tm) (u : Nat) (animated : Bool)
    (h : u &&& SECOND_UNIT = 0) : clock_set_time c tick_time u animated = c := by
  simp [clock_set_time, h]

theorem clock_set_time_second_only (c : Clock) (tick_time : Tm) (u : Nat) (animated : Bool)
    (hs : u &&& SECOND_UNIT ≠ 0) (hm : u &&& MINUTE_UNIT = 0) :
    clock_set_time c tick_time u animated
      = { c with
          seconds0 := digit_set_value c.seconds0 (tick_time.tm_sec.tdiv 10) animated
          seconds1 := digit_set_value c.seconds1 (tick_time.tm_sec.tmod 10) animated } := by
  simp [clock_set_time, hs, hm]

theorem clock_set_time_second_minute (c : Clock) (tick_time : Tm) (u : Nat)
    (animated : Bool) (hs : u &&& SECOND_UNIT ≠ 0) (hm : u &&& MINUTE_UNIT ≠ 0)
    (hh : u &&& HOUR_UNIT = 0) :
    clock_set_time c tick_time u animated
      = { c with
          seconds0 := digit_set_value c.seconds0 (tick_time.tm_sec.tdiv 10) animated
          seconds1 := digit_set_value c.seconds1 (tick_time.tm_sec.tmod 10) animated
          minutes0 := digit_set_value c.minutes0 (tick_time.tm_min.tdiv 10) animated
          minutes1 := digit_set_value c.minutes1 (tick_time.tm_min.tmod 10) animated } := by
  simp [clock_set_time, hs, hm, hh]

theorem clock_set_time_all (c : Clock) (tick_time : Tm) (u : Nat) (animated : Bool)
    (hs : u &&& SECOND_UNIT ≠ 0) (hm : u &&& MINUTE_UNIT ≠ 0) (hh : u &&& HOUR_UNIT ≠ 0) :
    clock_set_time c tick_time u animated
      = { hours0 := digit_set_value c.hours0 (tick_time.tm_hour.tdiv 10) animated
          hours1 := digit_set_value c.hours1 (tick_time.tm_hour.tmod 10) animated
          minutes0 := digit_set_value c.minutes0 (tick_time.tm_min.tdiv 10) animated
          minutes1 := digit_set_value c.minutes1 (tick_time.tm_min.tmod 10) animated
          seconds0 := digit_set_value c.seconds0 (tick_time.tm_sec.tdiv 10) animated
          seconds1 := digit_set_value c.seconds1 (tick_time.tm_sec.tmod 10) animated } := by
  simp [clock_set_time, hs, hm, hh]

/-- C12. The cascade of `clock_set_time`, for every clock, time and flag: without
`SECOND_UNIT` in the mask the whole clock is returned unchanged (so for the masks
`MINUTE_UNIT` and `MINUTE_UNIT | HOUR_UNIT`); the minutes digits are unchanged
unless `SECOND_UNIT` and `MINUTE_UNIT` are both set; the hours digits are unchanged
unless `SECOND_UNIT`, `MINUTE_UNIT` and `HOUR_UNIT` are all set. -/
theorem clock_set_time_cascade (c : Clock) (tick_time : Tm) (u : Nat) (animated : Bool) :
    (u &&& SECOND_UNIT = 0 → clock_set_time c tick_time u animated = c) ∧
    clock_set_time c tick_time MINUTE_UNIT animated = c ∧
    clock_set_time c tick_time (MINUTE_UNIT ||| HOUR_UNIT) animated = c ∧
    ((u &&& SECOND_UNIT = 0 ∨ u &&& MINUTE_UNIT = 0) →
      (clock_set_time c tick_time u animated).minutes0 = c.minutes0 ∧
      (clock_set_time c tick_time u animated).minutes1 = c.minutes1) ∧
    ((u &&& SECOND_UNIT = 0 ∨ u &&& MINUTE_UNIT = 0 ∨ u &&& HOUR_UNIT = 0) →
      (clock_set_time c tick_time u animated).hours0 = c.hours0 ∧
      (clock_set_time c tick_time u animated).hours1 = c.hours1) := by
  refine ⟨clock_set_time_no_second c tick_time u animated,
    clock_set_time_no_second c tick_time _ animated (by decide),
    clock_set_time_no_second c tick_time _ animated (by decide), ?_, ?_⟩
  · intro h
    by_cases hs : u &&& SECOND_UNIT = 0
    · rw [clock_set_time_no_second c tick_time u animated hs]; exact ⟨rfl, rfl⟩
    · have hm : u &&& MINUTE_UNIT = 0 := h.resolve_left hs
      rw [clock_set_time_second_only c tick_time u animated hs hm]; exact ⟨rfl, rfl⟩
  · intro h
    by_cases hs : u &&& SECOND_UNIT = 0
    · rw [clock_set_time_no_second c tick_time u animated hs]; exact ⟨rfl, rfl⟩
    · by_cases hm : u &&& MINUTE_UNIT = 0
      · rw [clock_set_time_second_only c tick_time u animated hs hm]; exact ⟨rfl, rfl⟩
      · have hh : u &&& HOUR_UNIT = 0 := (h.resolve_left hs).resolve_left hm
        rw [clock_set_time_second_minute c tick_time u animated hs hm hh]; exact ⟨rfl, rfl⟩

theorem clock_set_time_cascade_witness :
    (6 &&& SECOND_UNIT = 0 ∨ 6 &&& MINUTE_UNIT = 0 ∨ 6 &&& HOUR_UNIT = 0) ∧
    (clock_set_time clock_create ⟨30, 45, 12⟩ 6 true).hours0 = clock_create.hours0 ∧
    (3 &&& SECOND_UNIT = 0 ∨ 3 &&& MINUTE_UNIT = 0 ∨ 3 &&& HOUR_UNIT = 0) ∧
    (clock_set_time clock_create ⟨30, 45, 12⟩ 3 true).hours1 = clock_create.hours1 :=
  ⟨by decide,
   ((clock_set_time_cascade clock_create ⟨30, 45, 12⟩ 6 true).2.2.2.2 (by decide)).1,
   by decide,
   ((clock_set_time_cascade clock_create ⟨30, 45, 12⟩ 3 true).2.2.2.2 (by decide)).2⟩

theorem digit_set_value_value (d : Digit) (v : Int) (animated : Bool) :
    (digit_set_value d v animated).value = toChar v := by
  by_cases e : ofChar d.value = v
  · have h : d.value = toChar v := by rw [← e, toChar_ofChar]
    cases animated <;> simp [digit_set_value, e] <;> exact h
  · cases animated <;> simp [digit_set_value, e]

theorem digit_set_value_tile_size (d : Digit) (v : Int) (animated : Bool) :
    (digit_set_value d v animated).tile_size = d.tile_size := by
  by_cases e : ofChar d.value = v <;> cases animated <;> simp [digit_set_value, e]

theorem digit_set_value_not_animated_anim (d : Digit) (v : Int) :
    (digit_set_value d v false).anim = d.tile_size := by
  by_cases e : ofChar d.value = v <;> simp [digit_set_value, e]

theorem ofChar_set_tens (d : Digit) (n : Int) (animated : Bool) (h0 : 0 ≤ n) (h1 : n < 100) :
    ofChar (digit_set_value d (n.tdiv 10) animated).value = n / 10 := by
  rw [digit_set_value_value, Int.tdiv_eq_ediv h0 (by decide)]
  exact ofChar_toChar _ (by omega) (by omega)

theorem ofChar_set_ones (d : Digit) (n : Int) (animated : Bool) (h0 : 0 ≤ n) :
    ofChar (digit_set_value d (n.tmod 10) animated).value = n % 10 := by
  rw [digit_set_value_value, Int.tmod_eq_emod h0 (by decide)]
  exact ofChar_toChar _ (by omega) (by omega)

/-- C13. After `clock_set_time` with `SECOND_UNIT`, `MINUTE_UNIT` and `HOUR_UNIT` set,
for every time with `0 <= tm_hour <= 23`, `0 <= tm_min <= 59`, `0 <= tm_sec <= 60`
and either flag, each of the six digit values lies in `0..9` and the pairs decode to
the fields: `10 * hours[0].value + hours[1].value = tm_hour`, and likewise for minutes
and seconds. -/
theorem clock_set_time_decodes (c : Clock) (tick_time : Tm) (u : Nat) (animated : Bool)
    (hs : u &&& SECOND_UNIT ≠ 0) (hm : u &&& MINUTE_UNIT ≠ 0) (hh : u &&& HOUR_UNIT ≠ 0)
    (hh0 : 0 ≤ tick_time.tm_hour) (hh1 : tick_time.tm_hour ≤ 23)
    (hm0 : 0 ≤ tick_time.tm_min) (hm1 : tick_time.tm_min ≤ 59)
    (hs0 : 0 ≤ tick_time.tm_sec) (hs1 : tick_time.tm_sec ≤ 60) :
    (0 ≤ ofChar (clock_set_time c tick_time u animated).hours0.value ∧
      ofChar (clock_set_time c tick_time u animated).hours0.value ≤ 9) ∧
    (0 ≤ ofChar (clock_set_time c tick_time u animated).hours1.value ∧
      ofChar (clock_set_time c tick_time u animated).hours1.value ≤ 9) ∧
    (0 ≤ ofChar (clock_set_time c tick_time u animated).minutes0.value ∧
      ofChar (clock_set_time c tick_time u animated).minutes0.value ≤ 9) ∧
    (0 ≤ ofChar (clock_set_time c tick_time u animated).minutes1.value ∧
      ofChar (clock_set_time c tick_time u animated).minutes1.value ≤ 9) ∧
    (0 ≤ ofChar (clock_set_time c tick_time u animated).seconds0.value ∧
      ofChar (clock_set_time c tick_time u animated).seconds0.value ≤ 9) ∧
    (0 ≤ ofChar (clock_set_time c tick_time u animated).seconds1.value ∧
      ofChar (clock_set_time c tick_time u animated).seconds1.value ≤ 9) ∧
    10 * ofChar (clock_set_time c tick_time u animated).hours0.value
      + ofChar (clock_set_time c tick_time u animated).hours1.value = tick_time.tm_hour ∧
    10 * ofChar (clock_set_time c tick_time u animated).minutes0.value
      + ofChar (clock_set_time c tick_time u animated).minutes1.value = tick_time.tm_min ∧
    10 * ofChar (clock_set_time c tick_time u animated).seconds0.value
      + ofChar (clock_set_time c tick_time u animated).seconds1.value = tick_time.tm_sec := by
  rw [clock_set_time_all c tick_time u animated hs hm hh]
  simp only []
  rw [ofChar_set_tens _ _ _ hh0 (by omega), ofChar_set_ones _ _ _ hh0,
    ofChar_set_tens _ _ _ hm0 (by omega), ofChar_set_ones _ _ _ hm0,
    ofChar_set_tens _ _ _ hs0 (by omega), ofChar_set_ones _ _ _ hs0]
  omega

theorem clock_set_time_decodes_witness :
    10 * ofChar (clock_set_time clock_create ⟨60, 59, 23⟩ 7 true).hours0.value
      + ofChar (clock_set_time clock_create ⟨60, 59, 23⟩ 7 true).hours1.value = 23 ∧
    10 * ofChar (clock_set_time clock_create ⟨60, 59, 23⟩ 7 true).seconds0.value
      + ofChar (clock_set_time clock_create ⟨60, 59, 23⟩ 7 true).seconds1.value = 60 :=
  ⟨(clock_set_time_decodes clock_create ⟨60, 59, 23⟩ 7 true (by decide) (by decide)
      (by decide) (by decide) (by decide) (by decide) (by decide) (by decide)
      (by decide)).2.2.2.2.2.2.1,
   (clock_set_time_decodes clock_create ⟨60, 59, 23⟩ 7 true (by decide) (by decide)
      (by decide) (by decide) (by decide) (by decide) (by decide) (by decide)
      (by decide)).2.2.2.2.2.2.2.2⟩

/-- C15. Non-animated start-up: for every valid time, `clock_set_time` on the clock
returned by `clock_create`, with the three time bits set (as in the mask of all units
that `init` passes) and `animated = false`, yields a clock whose six digits are at
rest (`anim = tile_size`) with the value of the corresponding time digit, and on
which `clock_has_frame` is false. -/
theorem clock_startup_at_rest (tick_time : Tm) (u : Nat)
    (hs : u &&& SECOND_UNIT ≠ 0) (hm : u &&& MINUTE_UNIT ≠ 0) (hh : u &&& HOUR_UNIT ≠ 0)
    (hh0 : 0 ≤ tick_time.tm_hour) (hh1 : tick_time.tm_hour ≤ 23)
    (hm0 : 0 ≤ tick_time.tm_min) (hm1 : tick_time.tm_min ≤ 59)
    (hs0 : 0 ≤ tick_time.tm_sec) (hs1 : tick_time.tm_sec ≤ 60) :
    ((clock_set_time clock_create tick_time u false).hours0.anim
        = (clock_set_time clock_create tick_time u false).hours0.tile_size ∧
      ofChar (clock_set_time clock_create tick_time u false).hours0.value
        = tick_time.tm_hour / 10) ∧
    ((clock_set_time clock_create tick_time u false).hours1.anim
        = (clock_set_time clock_create tick_time u false).hours1.tile_size ∧
      ofChar (clock_set_time clock_create tick_time u false).hours1.value
        = tick_time.tm_hour % 10) ∧
    ((clock_set_time clock_create tick_time u false).minutes0.anim
        = (clock_set_time clock_create tick_time u false).minutes0.tile_size ∧
      ofChar (clock_set_time clock_create tick_time u false).minutes0.value
        = tick_time.tm_min / 10) ∧
    ((clock_set_time clock_create tick_time u false).minutes1.anim
        = (clock_set_time clock_create tick_time u false).minutes1.tile_size ∧
      ofChar (clock_set_time clock_create tick_time u false).minutes1.value
        = tick_time.tm_min % 10) ∧
    ((clock_set_time clock_create tick_time u false).seconds0.anim
        = (clock_set_time clock_create tick_time u false).seconds0.tile_size ∧
      ofChar (clock_set_time clock_create tick_time u false).seconds0.value
        = tick_time.tm_sec / 10) ∧
    ((clock_set_time clock_create tick_time u false).seconds1.anim
        = (clock_set_time clock_create tick_time u false).seconds1.tile_size ∧
      ofChar (clock_set_time clock_create tick_time u false).seconds1.value
        = tick_time.tm_sec % 10) ∧
    clock_has_frame (clock_set_time clock_create tick_time u false) = false := by
  rw [clock_set_time_all clock_create tick_time u false hs hm hh]
  simp only [clock_has_frame, digit_set_value_not_animated_anim, digit_set_value_tile_size]
  rw [ofChar_set_tens _ _ _ hh0 (by omega), ofChar_set_ones _ _ _ hh0,
    ofChar_set_tens _ _ _ hm0 (by omega), ofChar_set_ones _ _ _ hm0,
    ofChar_set_tens _ _ _ hs0 (by omega), ofChar_set_ones _ _ _ hs0]
  simp

theorem clock_startup_at_rest_witness :
    clock_has_frame (clock_set_time clock_create ⟨7, 34, 12⟩ 63 false) = false ∧
    ofChar (clock_set_time clock_create ⟨7, 34, 12⟩ 63 false).minutes0.value
      = (⟨7, 34, 12⟩ : Tm).tm_min / 10 :=
  ⟨(clock_startup_at_rest ⟨7, 34, 12⟩ 63 (by decide) (by decide) (by decide) (by decide)
      (by decide) (by decide) (by decide) (by decide) (by decide)).2.2.2.2.2.2,
   (clock_startup_at_rest ⟨7, 34, 12⟩ 63 (by decide) (by decide) (by decide) (by decide)
      (by decide) (by decide) (by decide) (by decide) (by decide)).2.2.1.2⟩

/-- C16. The clock returned by `clock_create` has every digit at rest showing zero:
`value = 0`, `prv_value = 0` and `anim = tile_size` for each of the six digits, with
tile size 13 for both hour digits and 7 for the minute and second digits;
`clock_has_frame` is false on it. -/
theorem clock_create_at_rest :
    clock_create
      = { hours0 := { value := 0, prv_value := 0, anim := 13, tile_size := 13 }
          hours1 := { value := 0, prv_value := 0, anim := 13, tile_size := 13 }
          minutes0 := { value := 0, prv_value := 0, anim := 7, tile_size := 7 }
          minutes1 := { value := 0, prv_value := 0, anim := 7, tile_size := 7 }
          seconds0 := { value := 0, prv_value := 0, anim := 7, tile_size := 7 }
          seconds1 := { value := 0, prv_value := 0, anim := 7, tile_size := 7 } } ∧
    clock_create.hours0.anim = clock_create.hours0.tile_size ∧
    clock_create.hours1.anim = clock_create.hours1.tile_size ∧
    clock_create.minutes0.anim = clock_create.minutes0.tile_size ∧
    clock_create.minutes1.anim = clock_create.minutes1.tile_size ∧
    clock_create.seconds0.anim = clock_create.seconds0.tile_size ∧
    clock_create.seconds1.anim = clock_create.seconds1.tile_size ∧
    clock_has_frame clock_create = false := by
  refine ⟨by decide, rfl, rfl, rfl, rfl, rfl, rfl, by decide⟩

/-- C19. A false `clock_has_frame` does not mean that every displayed digit is at
rest: after `clock_create`, a non-animated `clock_set_time` to 10:00:00 and an
animated one to 20:00:00, both with all unit bits set, `clock_has_frame` is false
while `hours[0]` is animating with `anim = 0 < tile_size = 13`. -/
theorem clock_has_frame_misses_hours_tens (gdt : Int → Int → Int) (coords : Int → GPoint)
    (ctx : GContext) :
    clock_has_frame (clock_run gdt coords clock_create ctx
        [ClockCall.set_time ⟨0, 0, 10⟩ 63 false, ClockCall.set_time ⟨0, 0, 20⟩ 63 true]).1
      = false ∧
    (clock_run gdt coords clock_create ctx
        [ClockCall.set_time ⟨0, 0, 10⟩ 63 false, ClockCall.set_time ⟨0, 0, 20⟩ 63 true]).1.hours0
      = { value := 2, prv_value := 1, anim := 0, tile_size := 13 } ∧
    ofChar (clock_run gdt coords clock_create ctx
        [ClockCall.set_time ⟨0, 0, 10⟩ 63 false,
          ClockCall.set_time ⟨0, 0, 20⟩ 63 true]).1.hours0.anim
      < ofChar (clock_run gdt coords clock_create ctx
        [ClockCall.set_time ⟨0, 0, 10⟩ 63 false,
          ClockCall.set_time ⟨0, 0, 20⟩ 63 true]).1.hours0.tile_size := by
  simp only [clock_run]
  refine ⟨by decide, by decide, by decide⟩

/-! ## The clock aggregate: `clock_draw` -/

theorem digit_set_value_changed (d : Digit) (v : Int) (h : ofChar d.value ≠ v) :
    digit_set_value d v true
      = { value := toChar v, prv_value := d.value, anim := 0, tile_size := d.tile_size } := by
  simp [digit_set_value, h, toChar_zero]

theorem clock_set_time_seconds (c : Clock) (tick_time : Tm) (u : Nat) (animated : Bool)
    (hs : u &&& SECOND_UNIT ≠ 0) :
    (clock_set_time c tick_time u animated).seconds0
        = digit_set_value c.seconds0 (tick_time.tm_sec.tdiv 10) animated ∧
    (clock_set_time c tick_time u animated).seconds1
        = digit_set_value c.seconds1 (tick_time.tm_sec.tmod 10) animated := by
  by_cases hm : u &&& MINUTE_UNIT = 0
  · rw [clock_set_time_second_only c tick_time u animated hs hm]; exact ⟨rfl, rfl⟩
  · by_cases hh : u &&& HOUR_UNIT = 0
    · rw [clock_set_time_second_minute c tick_time u animated hs hm hh]; exact ⟨rfl, rfl⟩
    · rw [clock_set_time_all c tick_time u animated hs hm hh]; exact ⟨rfl, rfl⟩

theorem clock_run_draws (gdt : Int → Int → Int) (coords : Int → GPoint)
    (bs : List GRect) :
    ∀ (c : Clock) (ctx : GContext),
      (clock_run gdt coords c ctx (bs.map ClockCall.draw)).1
        = { hours0 := Nat.iterate digit_next_frame bs.length c.hours0
            hours1 := Nat.iterate digit_next_frame bs.length c.hours1
            minutes0 := Nat.iterate digit_next_frame bs.length c.minutes0
            minutes1 := Nat.iterate digit_next_frame bs.length c.minutes1
            seconds0 := c.seconds0
            seconds1 := c.seconds1 } := by
  induction bs with
  | nil => intro c ctx; rfl
  | cons b bs ih =>
    intro c ctx
    simp only [List.map_cons, clock_run, List.length_cons, Function.iterate_succ_apply]
    rw [ih, clock_draw_fst]

theorem clock_draw_snd (gdt : Int → Int → Int) (coords : Int → GPoint) (c : Clock)
    (ctx : GContext) (bounds : GRect) :
    (clock_draw gdt coords c ctx bounds).2
      = ctx
        ++ [DrawCall.set_fill_color GColor.GColorWhite,
            DrawCall.set_fill_color GColor.GColorFolly]
        ++ (digit_draw gdt coords c.hours0 []
              ((bounds.size.w - 91).tdiv 2) (6 + (bounds.size.h - 115).tdiv 2)).2
        ++ (digit_draw gdt coords c.hours1 []
              ((bounds.size.w - 91).tdiv 2 + 52) (6 + (bounds.size.h - 115).tdiv 2)).2
        ++ [DrawCall.set_fill_color GColor.GColorWhite]
        ++ (digit_draw gdt coords c.minutes0 []
              ((bounds.size.w - 49).tdiv 2) (6 + (bounds.size.h - 115).tdiv 2 + 80)).2
        ++ (digit_draw gdt coords c.minutes1 []
              ((bounds.size.w - 49).tdiv 2 + 28) (6 + (bounds.size.h - 115).tdiv 2 + 80)).2 := by
  have e1 : (7 : Int) * s_hours_tile_size = 91 := by decide
  have e2 : bounds.size.h - 5 * (s_hours_tile_size + s_minutes_tile_size)
      - (s_hours_tile_size + 2) = bounds.size.h - 115 := by
    simp only [s_hours_tile_size, s_minutes_tile_size]; omega
  have e3 : (4 : Int) * s_hours_tile_size = 52 := by decide
  have e4 : (7 : Int) * s_minutes_tile_size = 49 := by decide
  have e5 : (5 : Int) * s_hours_tile_size + (s_hours_tile_size + 2) = 80 := by decide
  have e6 : (4 : Int) * s_minutes_tile_size = 28 := by decide
  simp only [clock_draw, e1, e2, e3, e4, e5, e6, digit_draw_snd,
    graphics_context_set_fill_color, List.nil_append, List.append_assoc]
  rfl

/-- C20. In the stacked layout without date, `clock_draw` draws and advances
`hours[0]`, `hours[1]`, `minutes[0]`, `minutes[1]`, in that order, and nothing else:
the seconds digits are returned unchanged, by one `clock_draw` and by any number of
them.  Hence a seconds digit that an animated `clock_set_time` has put at `anim = 0`
still has `anim = 0` after any number of `clock_draw` calls, and with a tile size
other than zero it is never at rest. -/
theorem clock_draw_skips_seconds (gdt : Int → Int → Int) (coords : Int → GPoint) :
    (∀ (c : Clock) (ctx : GContext) (bounds : GRect),
      (clock_draw gdt coords c ctx bounds).1
        = { hours0 := digit_next_frame c.hours0
            hours1 := digit_next_frame c.hours1
            minutes0 := digit_next_frame c.minutes0
            minutes1 := digit_next_frame c.minutes1
            seconds0 := c.seconds0
            seconds1 := c.seconds1 } ∧
      (clock_draw gdt coords c ctx bounds).2
        = ctx
          ++ [DrawCall.set_fill_color GColor.GColorWhite,
              DrawCall.set_fill_color GColor.GColorFolly]
          ++ (digit_draw gdt coords c.hours0 []
                ((bounds.size.w - 91).tdiv 2) (6 + (bounds.size.h - 115).tdiv 2)).2
          ++ (digit_draw gdt coords c.hours1 []
                ((bounds.size.w - 91).tdiv 2 + 52) (6 + (bounds.size.h - 115).tdiv 2)).2
          ++ [DrawCall.set_fill_color GColor.GColorWhite]
          ++ (digit_draw gdt coords c.minutes0 []
                ((bounds.size.w - 49).tdiv 2) (6 + (bounds.size.h - 115).tdiv 2 + 80)).2
          ++ (digit_draw gdt coords c.minutes1 []
                ((bounds.size.w - 49).tdiv 2 + 28)
                (6 + (bounds.size.h - 115).tdiv 2 + 80)).2) ∧
    (∀ (c : Clock) (ctx : GContext) (bs : List GRect),
      (clock_run gdt coords c ctx (bs.map ClockCall.draw)).1.seconds0 = c.seconds0 ∧
      (clock_run gdt coords c ctx (bs.map ClockCall.draw)).1.seconds1 = c.seconds1) ∧
    (∀ (c : Clock) (tick_time : Tm) (u : Nat) (ctx : GContext) (bs : List GRect),
      u &&& SECOND_UNIT ≠ 0 →
      (ofChar c.seconds0.value ≠ tick_time.tm_sec.tdiv 10 →
        (clock_run gdt coords (clock_set_time c tick_time u true) ctx
            (bs.map ClockCall.draw)).1.seconds0.anim = 0 ∧
        (c.seconds0.tile_size ≠ 0 →
          (clock_run gdt coords (clock_set_time c tick_time u true) ctx
              (bs.map ClockCall.draw)).1.seconds0.anim
            ≠ (clock_run gdt coords (clock_set_time c tick_time u true) ctx
              (bs.map ClockCall.draw)).1.seconds0.tile_size)) ∧
      (ofChar c.seconds1.value ≠ tick_time.tm_sec.tmod 10 →
        (clock_run gdt coords (clock_set_time c tick_time u true) ctx
            (bs.map ClockCall.draw)).1.seconds1.anim = 0 ∧
        (c.seconds1.tile_size ≠ 0 →
          (clock_run gdt coords (clock_set_time c tick_time u true) ctx
              (bs.map ClockCall.draw)).1.seconds1.anim
            ≠ (clock_run gdt coords (clock_set_time c tick_time u true) ctx
              (bs.map ClockCall.draw)).1.seconds1.tile_size))) := by
  refine ⟨fun c ctx bounds => ⟨clock_draw_fst gdt coords c ctx bounds,
    clock_draw_snd gdt coords c ctx bounds⟩, ?_, ?_⟩
  · intro c ctx bs
    rw [clock_run_draws]
    exact ⟨rfl, rfl⟩
  · intro c tick_time u ctx bs hs
    rw [clock_run_draws]
    simp only []
    obtain ⟨k0, k1⟩ := clock_set_time_seconds c tick_time u true hs
    rw [k0, k1]
    constructor
    · intro hne
      rw [digit_set_value_changed _ _ hne]
      exact ⟨rfl, fun ht e => ht e.symm⟩
    · intro hne
      rw [digit_set_value_changed _ _ hne]
      exact ⟨rfl, fun ht e => ht e.symm⟩

theorem clock_draw_skips_seconds_witness :
    7 &&& SECOND_UNIT ≠ 0 ∧
    ofChar clock_create.seconds0.value ≠ (⟨30, 0, 0⟩ : Tm).tm_sec.tdiv 10 ∧
    (clock_run sample_transition sample_coords
        (clock_set_time clock_create ⟨30, 0, 0⟩ 7 true) []
        ([⟨⟨0, 0⟩, ⟨144, 168⟩⟩, ⟨⟨0, 0⟩, ⟨144, 168⟩⟩].map ClockCall.draw)).1.seconds0.anim
      = 0 :=
  ⟨by decide, by decide,
   (((clock_draw_skips_seconds sample_transition sample_coords).2.2 clock_create
      ⟨30, 0, 0⟩ 7 [] [⟨⟨0, 0⟩, ⟨144, 168⟩⟩, ⟨⟨0, 0⟩, ⟨144, 168⟩⟩] (by decide)).1
      (by decide)).1⟩

/-! ## The roll-over scenario -/

theorem digit_next_frame_anim (d : Digit) :
    ofChar (digit_next_frame d).anim
      = if ofChar d.anim < ofChar d.tile_size then ofChar d.anim + 1 else ofChar d.anim := by
  have h0 := ofChar_nonneg d.anim
  have h1 := ofChar_lt d.tile_size
  unfold digit_next_frame
  split
  · simp only []
    exact ofChar_toChar _ (by omega) (by omega)
  · rfl

theorem digit_next_frame_tile_size (d : Digit) :
    (digit_next_frame d).tile_size = d.tile_size := by
  unfold digit_next_frame
  split <;> rfl

theorem digit_next_frame_iterate (k : Nat) :
    ∀ d : Digit, ofChar d.anim ≤ ofChar d.tile_size →
      ofChar (Nat.iterate digit_next_frame k d).anim
          = min (ofChar d.anim + (k : Int)) (ofChar d.tile_size) ∧
      (Nat.iterate digit_next_frame k d).tile_size = d.tile_size := by
  induction k with
  | zero =>
    intro d h
    simp [h]
  | succ k ih =>
    intro d h
    have ha := digit_next_frame_anim d
    have ht := digit_next_frame_tile_size d
    have hle : ofChar (digit_next_frame d).anim ≤ ofChar (digit_next_frame d).tile_size := by
      rw [ha, ht]; split <;> omega
    obtain ⟨i1, i2⟩ := ih (digit_next_frame d) hle
    rw [Function.iterate_succ_apply]
    refine ⟨?_, by rw [i2, ht]⟩
    rw [i1, ha, ht]
    push_cast
    split <;> omega

theorem digit_set_value_to_zero (v p a t : CChar) (h : v ≠ 0) :
    digit_set_value ⟨v, p, a, t⟩ 0 true = ⟨0, v, 0, t⟩ := by
  have hne : ofChar (⟨v, p, a, t⟩ : Digit).value ≠ 0 := by
    intro e
    exact h ((ofChar_inj v 0).1 e)
  rw [digit_set_value_changed _ _ hne]
  rfl

/-- C14. Scenario 23:59:59 to 00:00:00.  From a clock at rest that shows 23:59:59
(tile sizes of `clock_create`, any previous values), `clock_set_time` to 00:00:00
with `SECOND_UNIT`, `MINUTE_UNIT` and `HOUR_UNIT` set and `animated = true` puts all
six digits at `anim = 0`, `value = 0` and `prv_value = 2, 3, 5, 9, 5, 9`;
`clock_has_frame` is then true, and after `k` further `clock_draw` calls it is true
exactly when `k < 13`. -/
theorem clock_rollover (gdt : Int → Int → Int) (coords : Int → GPoint)
    (p0 p1 p2 p3 p4 p5 : CChar) (u : Nat)
    (hs : u &&& SECOND_UNIT ≠ 0) (hm : u &&& MINUTE_UNIT ≠ 0) (hh : u &&& HOUR_UNIT ≠ 0) :
    clock_set_time
        { hours0 := ⟨2, p0, 13, 13⟩, hours1 := ⟨3, p1, 13, 13⟩,
          minutes0 := ⟨5, p2, 7, 7⟩, minutes1 := ⟨9, p3, 7, 7⟩,
          seconds0 := ⟨5, p4, 7, 7⟩, seconds1 := ⟨9, p5, 7, 7⟩ } ⟨0, 0, 0⟩ u true
      = { hours0 := { value := 0, prv_value := 2, anim := 0, tile_size := 13 }
          hours1 := { value := 0, prv_value := 3, anim := 0, tile_size := 13 }
          minutes0 := { value := 0, prv_value := 5, anim := 0, tile_size := 7 }
          minutes1 := { value := 0, prv_value := 9, anim := 0, tile_size := 7 }
          seconds0 := { value := 0, prv_value := 5, anim := 0, tile_size := 7 }
          seconds1 := { value := 0, prv_value := 9, anim := 0, tile_size := 7 } } ∧
    clock_has_frame (clock_set_time
        { hours0 := ⟨2, p0, 13, 13⟩, hours1 := ⟨3, p1, 13, 13⟩,
          minutes0 := ⟨5, p2, 7, 7⟩, minutes1 := ⟨9, p3, 7, 7⟩,
          seconds0 := ⟨5, p4, 7, 7⟩, seconds1 := ⟨9, p5, 7, 7⟩ } ⟨0, 0, 0⟩ u true) = true ∧
    (∀ (ctx : GContext) (bs : List GRect),
      (clock_has_frame (clock_run gdt coords (clock_set_time
          { hours0 := ⟨2, p0, 13, 13⟩, hours1 := ⟨3, p1, 13, 13⟩,
            minutes0 := ⟨5, p2, 7, 7⟩, minutes1 := ⟨9, p3, 7, 7⟩,
            seconds0 := ⟨5, p4, 7, 7⟩, seconds1 := ⟨9, p5, 7, 7⟩ } ⟨0, 0, 0⟩ u true)
          ctx (bs.map ClockCall.draw)).1 = true ↔ bs.length < 13) ∧
      ofChar (clock_run gdt coords (clock_set_time
          { hours0 := ⟨2, p0, 13, 13⟩, hours1 := ⟨3, p1, 13, 13⟩,
            minutes0 := ⟨5, p2, 7, 7⟩, minutes1 := ⟨9, p3, 7, 7⟩,
            seconds0 := ⟨5, p4, 7, 7⟩, seconds1 := ⟨9, p5, 7, 7⟩ } ⟨0, 0, 0⟩ u true)
          ctx (bs.map ClockCall.draw)).1.hours1.anim = min (bs.length : Int) 13 ∧
      ofChar (clock_run gdt coords (clock_set_time
          { hours0 := ⟨2, p0, 13, 13⟩, hours1 := ⟨3, p1, 13, 13⟩,
            minutes0 := ⟨5, p2, 7, 7⟩, minutes1 := ⟨9, p3, 7, 7⟩,
            seconds0 := ⟨5, p4, 7, 7⟩, seconds1 := ⟨9, p5, 7, 7⟩ } ⟨0, 0, 0⟩ u true)
          ctx (bs.map ClockCall.draw)).1.minutes1.anim = min (bs.length : Int) 7) := by
  have e : clock_set_time
        { hours0 := ⟨2, p0, 13, 13⟩, hours1 := ⟨3, p1, 13, 13⟩,
          minutes0 := ⟨5, p2, 7, 7⟩, minutes1 := ⟨9, p3, 7, 7⟩,
          seconds0 := ⟨5, p4, 7, 7⟩, seconds1 := ⟨9, p5, 7, 7⟩ } ⟨0, 0, 0⟩ u true
      = { hours0 := { value := 0, prv_value := 2, anim := 0, tile_size := 13 }
          hours1 := { value := 0, prv_value := 3, anim := 0, tile_size := 13 }
          minutes0 := { value := 0, prv_value := 5, anim := 0, tile_size := 7 }
          minutes1 := { value := 0, prv_value := 9, anim := 0, tile_size := 7 }
          seconds0 := { value := 0, prv_value := 5, anim := 0, tile_size := 7 }
          seconds1 := { value := 0, prv_value := 9, anim := 0, tile_size := 7 } } := by
    rw [clock_set_time_all _ _ u true hs hm hh]
    have z1 : (0 : Int).tdiv 10 = 0 := rfl
    have z2 : (0 : Int).tmod 10 = 0 := rfl
    simp only [z1, z2]
    rw [digit_set_value_to_zero 2 p0 13 13 (by decide),
      digit_set_value_to_zero 3 p1 13 13 (by decide),
      digit_set_value_to_zero 5 p2 7 7 (by decide),
      digit_set_value_to_zero 9 p3 7 7 (by decide),
      digit_set_value_to_zero 5 p4 7 7 (by decide),
      digit_set_value_to_zero 9 p5 7 7 (by decide)]
  rw [e]
  refine ⟨rfl, by decide, ?_⟩
  intro ctx bs
  rw [clock_run_draws]
  have a1 := (digit_next_frame_iterate bs.length ⟨0, 3, 0, 13⟩ (by decide))
  have a2 := (digit_next_frame_iterate bs.length ⟨0, 9, 0, 7⟩ (by decide))
  have c1 : ofChar (⟨0, 3, 0, 13⟩ : Digit).anim = 0 := rfl
  have c2 : ofChar (⟨0, 3, 0, 13⟩ : Digit).tile_size = 13 := rfl
  have c3 : ofChar (⟨0, 9, 0, 7⟩ : Digit).anim = 0 := rfl
  have c4 : ofChar (⟨0, 9, 0, 7⟩ : Digit).tile_size = 7 := rfl
  rw [c1, c2] at a1
  rw [c3, c4] at a2
  obtain ⟨a11, a12⟩ := a1
  obtain ⟨a21, a22⟩ := a2
  have t1 : ofChar (Nat.iterate digit_next_frame bs.length ⟨0, 3, 0, 13⟩).tile_size = 13 := by
    rw [a12]; rfl
  have t2 : ofChar (Nat.iterate digit_next_frame bs.length ⟨0, 9, 0, 7⟩).tile_size = 7 := by
    rw [a22]; rfl
  refine ⟨?_, by rw [a11]; simp, by rw [a21]; simp⟩
  simp only [clock_has_frame, Bool.or_eq_true, decide_eq_true_eq]
  rw [a11, a21, t1, t2]
  omega

theorem clock_rollover_witness :
    7 &&& SECOND_UNIT ≠ 0 ∧ 7 &&& MINUTE_UNIT ≠ 0 ∧ 7 &&& HOUR_UNIT ≠ 0 ∧
    clock_has_frame (clock_set_time
        { hours0 := ⟨2, 1, 13, 13⟩, hours1 := ⟨3, 2, 13, 13⟩,
          minutes0 := ⟨5, 4, 7, 7⟩, minutes1 := ⟨9, 8, 7, 7⟩,
          seconds0 := ⟨5, 4, 7, 7⟩, seconds1 := ⟨9, 8, 7, 7⟩ } ⟨0, 0, 0⟩ 7 true) = true :=
  ⟨by decide, by decide, by decide,
   (clock_rollover sample_transition sample_coords 1 2 4 8 4 8 7 (by decide) (by decide)
      (by decide)).2.1⟩

/-! ## Weights and table indices of `digit_draw` -/

theorem digit_draw_transition_cases (gdt : Int → Int → Int) (d : Digit) :
    (ofChar d.prv_value ≤ ofChar d.value ∧ gdt (ofChar d.prv_value) (ofChar d.value) ≠ -1 ∧
      digit_draw_transition gdt d
        = (gdt (ofChar d.prv_value) (ofChar d.value), ofChar d.anim,
            ofChar d.tile_size - ofChar d.anim)) ∨
    (ofChar d.value < ofChar d.prv_value ∧ gdt (ofChar d.value) (ofChar d.prv_value) ≠ -1 ∧
      digit_draw_transition gdt d
        = (gdt (ofChar d.value) (ofChar d.prv_value), ofChar d.tile_size - ofChar d.anim,
            ofChar d.anim)) ∨
    (gdt (min (ofChar d.prv_value) (ofChar d.value))
        (max (ofChar d.prv_value) (ofChar d.value)) = -1 ∧ ofChar d.value < 9 ∧
      digit_draw_transition gdt d = (ofChar d.value, 0, ofChar d.tile_size)) ∨
    (gdt (min (ofChar d.prv_value) (ofChar d.value))
        (max (ofChar d.prv_value) (ofChar d.value)) = -1 ∧ ¬ ofChar d.value < 9 ∧
      digit_draw_transition gdt d = (12, ofChar d.tile_size, 0)) := by
  obtain ⟨m1, m2⟩ := digit_draw_blend_min_max d
  by_cases hn : gdt (min (ofChar d.prv_value) (ofChar d.value))
      (max (ofChar d.prv_value) (ofChar d.value)) = -1
  · by_cases hv : ofChar d.value < 9
    · right; right; left
      refine ⟨hn, hv, ?_⟩
      rw [digit_draw_transition_eq, m1, m2, hn]; simp [hv]
    · right; right; right
      refine ⟨hn, hv, ?_⟩
      rw [digit_draw_transition_eq, m1, m2, hn]; simp [hv]
  · by_cases hd : ofChar d.value < ofChar d.prv_value
    · right; left
      have hb := digit_draw_blend_descending d hd
      rw [min_eq_right (le_of_lt hd), max_eq_left (le_of_lt hd)] at hn
      refine ⟨hd, hn, ?_⟩
      rw [digit_draw_transition_eq, hb]; simp [hn]
    · left
      have hle := not_lt.mp hd
      have hb := digit_draw_blend_ascending d hle
      rw [min_eq_left hle, max_eq_right hle] at hn
      refine ⟨hle, hn, ?_⟩
      rw [digit_draw_transition_eq, hb]; simp [hn]

/-- C17. The blend of `digit_draw` is an affine combination in tile-size units: for
every digit with `0 <= anim <= tile_size` and every lookup, the two weights `alpha0`
and `alpha1` used in the rectangle formula are both non-negative and add up to
`tile_size`; they are `(anim, tile_size - anim)` when a transition is found
ascending, `(tile_size - anim, anim)` when found after the swap, `(0, tile_size)` in
the fallback with `value < 9` and `(tile_size, 0)` in the other fallback. -/
theorem digit_draw_weights_affine (gdt : Int → Int → Int) (d : Digit)
    (h : digit_anim_in_range d) :
    0 ≤ (digit_draw_transition gdt d).2.1 ∧
    0 ≤ (digit_draw_transition gdt d).2.2 ∧
    (digit_draw_transition gdt d).2.1 + (digit_draw_transition gdt d).2.2
      = ofChar d.tile_size ∧
    ((digit_draw_transition gdt d).2 = (ofChar d.anim, ofChar d.tile_size - ofChar d.anim) ∨
      (digit_draw_transition gdt d).2 = (ofChar d.tile_size - ofChar d.anim, ofChar d.anim) ∨
      (digit_draw_transition gdt d).2 = (0, ofChar d.tile_size) ∨
      (digit_draw_transition gdt d).2 = (ofChar d.tile_size, 0)) := by
  obtain ⟨h0, h1⟩ := h
  have ht := ofChar_nonneg d.tile_size
  rcases digit_draw_transition_cases gdt d with ⟨_, _, e⟩ | ⟨_, _, e⟩ | ⟨_, _, e⟩ | ⟨_, _, e⟩
  · rw [e]; exact ⟨h0, by simp only []; omega, by simp only []; omega, Or.inl rfl⟩
  · rw [e]; exact ⟨by simp only []; omega, h0, by simp only []; omega, Or.inr (Or.inl rfl)⟩
  · rw [e]
    exact ⟨le_refl _, ht, by simp only []; omega, Or.inr (Or.inr (Or.inl rfl))⟩
  · rw [e]
    exact ⟨ht, le_refl _, by simp only []; omega, Or.inr (Or.inr (Or.inr rfl))⟩

theorem digit_draw_weights_affine_witness :
    digit_anim_in_range (⟨3, 4, 2, 7⟩ : Digit) ∧
    (digit_draw_transition sample_transition ⟨3, 4, 2, 7⟩).2.1
      + (digit_draw_transition sample_transition ⟨3, 4, 2, 7⟩).2.2
      = ofChar (⟨3, 4, 2, 7⟩ : Digit).tile_size :=
  ⟨by decide, (digit_draw_weights_affine sample_transition ⟨3, 4, 2, 7⟩ (by decide)).2.2.1⟩

/-- C18. The function `digit_draw` reads no tile outside the table.  If the lookup
answers either -1 or an index `t` with `0 <= t < T`, for a table of `28 T` entries
with `T >= 13`, then for every digit the transition used is not -1 and lies in
`0 .. T - 1`, every index `28 * transition + i` and `28 * transition + 14 + i` with
`i < 14` lies in `0 .. 28 T - 1`, the fallback transition is `value` (in `0..8`) or 12,
and the result of `digit_draw` is the same for two tables that agree on
`0 .. 28 T - 1`. -/
theorem digit_draw_reads_in_table (gdt : Int → Int → Int) (T : Int) (hT : 13 ≤ T)
    (hg : ∀ a b : Int, gdt a b = -1 ∨ (0 ≤ gdt a b ∧ gdt a b < T)) (d : Digit) :
    (digit_draw_transition gdt d).1 ≠ -1 ∧
    (0 ≤ (digit_draw_transition gdt d).1 ∧ (digit_draw_transition gdt d).1 < T) ∧
    (∀ i : Nat, i < 14 →
      (0 ≤ 28 * (digit_draw_transition gdt d).1 + (i : Int) ∧
        28 * (digit_draw_transition gdt d).1 + (i : Int) < 28 * T) ∧
      (0 ≤ 28 * (digit_draw_transition gdt d).1 + 14 + (i : Int) ∧
        28 * (digit_draw_transition gdt d).1 + 14 + (i : Int) < 28 * T)) ∧
    (gdt (min (ofChar d.prv_value) (ofChar d.value))
        (max (ofChar d.prv_value) (ofChar d.value)) = -1 →
      ((digit_draw_transition gdt d).1 = ofChar d.value ∧
          0 ≤ (digit_draw_transition gdt d).1 ∧ (digit_draw_transition gdt d).1 ≤ 8) ∨
        (digit_draw_transition gdt d).1 = 12) ∧
    (∀ (coords coords2 : Int → GPoint) (ctx : GContext) (x y : Int),
      (∀ k : Int, 0 ≤ k → k < 28 * T → coords k = coords2 k) →
      digit_draw gdt coords d ctx x y = digit_draw gdt coords2 d ctx x y) := by
  have hv0 := ofChar_nonneg d.value
  have hrange : 0 ≤ (digit_draw_transition gdt d).1 ∧ (digit_draw_transition gdt d).1 < T := by
    rcases digit_draw_transition_cases gdt d with ⟨_, n, e⟩ | ⟨_, n, e⟩ | ⟨_, v, e⟩ | ⟨_, _, e⟩
    · rw [e]
      rcases hg (ofChar d.prv_value) (ofChar d.value) with g | g
      · exact absurd g n
      · exact g
    · rw [e]
      rcases hg (ofChar d.value) (ofChar d.prv_value) with g | g
      · exact absurd g n
      · exact g
    · rw [e]; simp only []; omega
    · rw [e]; simp only []; omega
  have hidx : ∀ i : Nat, i < 14 →
      (0 ≤ 28 * (digit_draw_transition gdt d).1 + (i : Int) ∧
        28 * (digit_draw_transition gdt d).1 + (i : Int) < 28 * T) ∧
      (0 ≤ 28 * (digit_draw_transition gdt d).1 + 14 + (i : Int) ∧
        28 * (digit_draw_transition gdt d).1 + 14 + (i : Int) < 28 * T) := by
    intro i hi
    obtain ⟨r0, r1⟩ := hrange
    omega
  refine ⟨by omega, hrange, hidx, ?_, ?_⟩
  · intro hn
    rcases digit_draw_transition_cases gdt d with ⟨l, n, _⟩ | ⟨l, n, _⟩ | ⟨_, v, e⟩ | ⟨_, _, e⟩
    · rw [min_eq_left l, max_eq_right l] at hn
      exact absurd hn n
    · rw [min_eq_right (le_of_lt l), max_eq_left (le_of_lt l)] at hn
      exact absurd hn n
    · left
      rw [e]
      exact ⟨rfl, hv0, by simp only []; omega⟩
    · right
      rw [e]
  · intro coords coords2 ctx x y hc
    apply Prod.ext
    · rw [digit_draw_fst, digit_draw_fst]
    · rw [digit_draw_snd, digit_draw_snd]
      congr 1
      apply List.map_congr_left
      intro i hi
      have hi14 : i < 14 := List.mem_range.mp hi
      obtain ⟨⟨p0, p1⟩, ⟨q0, q1⟩⟩ := hidx i hi14
      simp only [digit_draw_rect, Int.ofNat_eq_coe]
      rw [hc _ p0 p1, hc _ q0 q1]

theorem digit_draw_reads_in_table_witness :
    (13 : Int) ≤ 13 ∧
    (digit_draw_transition sample_transition ⟨9, 2, 0, 7⟩).1 ≠ -1 ∧
    (digit_draw_transition sample_transition ⟨9, 2, 0, 7⟩).1 < 13 :=
  ⟨by decide,
   (digit_draw_reads_in_table sample_transition 13 (by decide)
      (by
        intro a b
        unfold sample_transition
        split
        · right; omega
        · split
          · right; omega
          · left; rfl) ⟨9, 2, 0, 7⟩).1,
   (digit_draw_reads_in_table sample_transition 13 (by decide)
      (by
        intro a b
        unfold sample_transition
        split
        · right; omega
        · split
          · right; omega
          · left; rfl) ⟨9, 2, 0, 7⟩).2.1.2⟩

end Morph
